import Mathlib

/-!
Verification of the CSS selector builder and the JSON round-trip helpers
from `src/06-objects-tasks.js`.

The builder state is the pair of strings `(selector, creationOrder)` held by
`CssSelectorCreator`.  Each part-appending method calls
`checkSelectorStructure` with a fixed kind tag, which

1. throws the duplicate-selector error when the tag matches the regex
   `element|id|pseudo-element` (an unanchored search, i.e. one of those three
   words occurs inside the tag) and the tag occurs as a substring of
   `creationOrder` (`new RegExp(selector).test(this.creationOrder)`, again an
   unanchored search, the tags contain no regex metacharacter except `-`,
   which is literal outside a character class);
2. appends the tag to `creationOrder` (note: this happens before the order
   check, so a failing order check still records the tag);
3. throws the order error unless `creationOrder` matches
   `^(element)?(id)?(class)*?(attr)*?(pseudo-class)*?(pseudo-element)?$`.

That anchored regex recognises exactly the concatenations
`element^e id^i class^c attr^a pseudo-class^p pseudo-element^q` with
`e, i, q ≤ 1`.  The six tags form a prefix code (none is a prefix of
another), so a greedy left-to-right scan — strip an optional `element`, an
optional `id`, as many `class` as possible, and so on — accepts exactly the
same strings as the backtracking regex engine: whenever the remaining input
is a concatenation of some suffix of the group sequence, the token that the
greedy scan strips is forced, since no other group's token can be a prefix
of the remaining input.  `validOrderChars` below implements that greedy
scan; a failing JS exception is modelled as a `some message` component next
to the post-call state (mutations performed before the throw are kept,
mutations after it are not, exactly as in the source).
-/

inductive Kind where
  | element
  | id
  | «class»
  | attr
  | pseudoClass
  | pseudoElement
deriving DecidableEq, Repr

/-- The tag string each builder method passes to `checkSelectorStructure`. -/
def kindName : Kind → String
  | .element => "element"
  | .id => "id"
  | .«class» => "class"
  | .attr => "attr"
  | .pseudoClass => "pseudo-class"
  | .pseudoElement => "pseudo-element"

/-- Message created by `ErrorCreator.combinatorError(allowed)`. -/
def combinatorErrorMessage (allowed : String) : String :=
  "Combinator parsing error! Only " ++ allowed ++ " combinators are allowed to use"

/-- The `allowed` argument `combine` passes to `combinatorError`. -/
def allowedCombinatorsText : String := "\" \", +, ~, >"

/-- Message created by `ErrorCreator.noDuplicateSelectors` (the source spells
"then", not "than"). -/
def noDuplicateSelectorsMessage : String :=
  "Element, id and pseudo-element should not occur more then one time inside the selector"

/-- Message created by `ErrorCreator.selectorsOrderError`. -/
def selectorsOrderErrorMessage : String :=
  "Selector parts should be arranged in the following order: element, id, class, attribute, pseudo-class, pseudo-element"

/-- Boolean prefix test on character lists. -/
def isPreB : List Char → List Char → Bool
  | [], _ => true
  | _ :: _, [] => false
  | a :: as, b :: bs => a = b && isPreB as bs

/-- Boolean infix (substring) test on character lists. -/
def isInfB (t : List Char) : List Char → Bool
  | [] => isPreB t []
  | c :: s => isPreB t (c :: s) || isInfB t s

/-- Substring test on strings: `new RegExp(t).test(s)` for a pattern `t`
containing no regex metacharacters. -/
def strInfix (t s : String) : Bool := isInfB t.data s.data

/-- The test `selector.match(/element|id|pseudo-element/)`: an unanchored
alternation search, true iff one of the three words occurs in `selector`. -/
def dupKindTest (selector : String) : Bool :=
  strInfix "element" selector || strInfix "id" selector ||
    strInfix "pseudo-element" selector

/-- Strip `t` from the front of `s`, or fail. -/
def stripPre : List Char → List Char → Option (List Char)
  | [], s => some s
  | _ :: _, [] => none
  | a :: as, b :: bs => if a = b then stripPre as bs else none

/-- Strip an optional occurrence of `t` from the front of `s` (regex group
`(t)?`). -/
def stripOpt (t s : List Char) : List Char := (stripPre t s).getD s

/-- Strip as many occurrences of `t` as possible from the front of `s`
(regex group `(t)*`); `fuel` bounds the number of iterations. -/
def stripStar : Nat → List Char → List Char → List Char
  | 0, _, s => s
  | fuel + 1, t, s =>
    match stripPre t s with
    | some r => stripStar fuel t r
    | none => s

/-- Greedy recogniser for the anchored order regex
`^(element)?(id)?(class)*?(attr)*?(pseudo-class)*?(pseudo-element)?$`
(see the header comment for why the greedy scan is equivalent). -/
def validOrderChars (s : List Char) : Bool :=
  let s1 := stripOpt "element".data s
  let s2 := stripOpt "id".data s1
  let s3 := stripStar s2.length "class".data s2
  let s4 := stripStar s3.length "attr".data s3
  let s5 := stripStar s4.length "pseudo-class".data s4
  let s6 := stripOpt "pseudo-element".data s5
  s6.isEmpty

/-- The test `validOrderPattern.test(creationOrder)`. -/
def validOrderPattern (s : String) : Bool := validOrderChars s.data

structure CssSelectorCreator where
  selector : String
  creationOrder : String
deriving DecidableEq, Repr

namespace CssSelectorCreator

/-- The constructor: both fields start empty. -/
def new : CssSelectorCreator := { selector := "", creationOrder := "" }

/-- The method `checkSelectorStructure(selector)`.  The second component is
the message of the thrown error, if any; the first is the object state after
the call (the source appends to `creationOrder` before the order test, so
that append survives the order error). -/
def checkSelectorStructure (st : CssSelectorCreator) (selector : String) :
    CssSelectorCreator × Option String :=
  if dupKindTest selector && strInfix selector st.creationOrder then
    (st, some noDuplicateSelectorsMessage)
  else
    let st2 := { st with creationOrder := st.creationOrder ++ selector }
    if validOrderPattern st2.creationOrder then (st2, none)
    else (st2, some selectorsOrderErrorMessage)

/-- The method `element(value)`. -/
def element (st : CssSelectorCreator) (value : String) :
    CssSelectorCreator × Option String :=
  match st.checkSelectorStructure "element" with
  | (st2, none) => ({ st2 with selector := st2.selector ++ value }, none)
  | r => r

/-- The method `id(value)`. -/
def id (st : CssSelectorCreator) (value : String) :
    CssSelectorCreator × Option String :=
  match st.checkSelectorStructure "id" with
  | (st2, none) => ({ st2 with selector := st2.selector ++ "#" ++ value }, none)
  | r => r

/-- The method `class(value)`. -/
def «class» (st : CssSelectorCreator) (value : String) :
    CssSelectorCreator × Option String :=
  match st.checkSelectorStructure "class" with
  | (st2, none) => ({ st2 with selector := st2.selector ++ "." ++ value }, none)
  | r => r

/-- The method `attr(value)`. -/
def attr (st : CssSelectorCreator) (value : String) :
    CssSelectorCreator × Option String :=
  match st.checkSelectorStructure "attr" with
  | (st2, none) =>
    ({ st2 with selector := st2.selector ++ "[" ++ value ++ "]" }, none)
  | r => r

/-- The method `pseudoClass(value)`. -/
def pseudoClass (st : CssSelectorCreator) (value : String) :
    CssSelectorCreator × Option String :=
  match st.checkSelectorStructure "pseudo-class" with
  | (st2, none) => ({ st2 with selector := st2.selector ++ ":" ++ value }, none)
  | r => r

/-- The method `pseudoElement(value)`. -/
def pseudoElement (st : CssSelectorCreator) (value : String) :
    CssSelectorCreator × Option String :=
  match st.checkSelectorStructure "pseudo-element" with
  | (st2, none) => ({ st2 with selector := st2.selector ++ "::" ++ value }, none)
  | r => r

/-- The JS whitespace class `\s`. -/
def jsSpace (c : Char) : Bool :=
  c ∈ ['\u0009', '\u000A', '\u000B', '\u000C', '\u000D', '\u0020', '\u00A0',
    '\u1680', '\u2000', '\u2001', '\u2002', '\u2003', '\u2004', '\u2005',
    '\u2006', '\u2007', '\u2008', '\u2009', '\u200A', '\u2028', '\u2029',
    '\u202F', '\u205F', '\u3000', '\uFEFF']

/-- The test `/\s|\+|~|>/.test(combinator)`: an unanchored search, true iff
the string contains a whitespace character, `+`, `~` or `>` anywhere. -/
def combinatorTest (combinator : String) : Bool :=
  combinator.data.any fun c => jsSpace c || c = '+' || c = '~' || c = '>'

/-- The method `combine(selector1, combinator, selector2)`. -/
def stringify (st : CssSelectorCreator) : String := st.selector

def combine (st : CssSelectorCreator) (selector1 : CssSelectorCreator)
    (combinator : String) (selector2 : CssSelectorCreator) :
    CssSelectorCreator × Option String :=
  if combinatorTest combinator then
    ({ st with selector := st.selector ++ selector1.stringify ++ " " ++
        combinator ++ " " ++ selector2.stringify }, none)
  else (st, some (combinatorErrorMessage allowedCombinatorsText))

/-- Dispatch a part-appending method by kind. -/
def applyKind (st : CssSelectorCreator) : Kind → String →
    CssSelectorCreator × Option String
  | .element, v => st.element v
  | .id, v => st.id v
  | .«class», v => st.«class» v
  | .attr, v => st.attr v
  | .pseudoClass, v => st.pseudoClass v
  | .pseudoElement, v => st.pseudoElement v

end CssSelectorCreator

/-- Fragment appended to `selector` by a successful part call of a kind. -/
def fragment : Kind → String → String
  | .element, v => v
  | .id, v => "#" ++ v
  | .«class», v => "." ++ v
  | .attr, v => "[" ++ v ++ "]"
  | .pseudoClass, v => ":" ++ v
  | .pseudoElement, v => "::" ++ v

/-- A single call in a chain on one builder. -/
inductive Call where
  | part (k : Kind) (v : String)
  | comb (s1 : CssSelectorCreator) (c : String) (s2 : CssSelectorCreator)

/-- Apply one call to a builder. -/
def applyCall (st : CssSelectorCreator) : Call → CssSelectorCreator × Option String
  | .part k v => st.applyKind k v
  | .comb s1 c s2 => st.combine s1 c s2

/-- One step of a call chain: once a call has thrown, the chain is aborted
and the state at the throw is kept. -/
def stepCall : CssSelectorCreator × Option String → Call →
    CssSelectorCreator × Option String
  | (st, none), c => applyCall st c
  | p, _ => p

/-- Run a call chain on a builder. -/
def runCalls (st : CssSelectorCreator) (cs : List Call) :
    CssSelectorCreator × Option String :=
  cs.foldl stepCall (st, none)

namespace cssSelectorBuilder

/-- The facade method `cssSelectorBuilder.element`. -/
def element (value : String) : CssSelectorCreator × Option String :=
  CssSelectorCreator.new.element value

/-- The facade method `cssSelectorBuilder.id`. -/
def id (value : String) : CssSelectorCreator × Option String :=
  CssSelectorCreator.new.id value

/-- The facade method `cssSelectorBuilder.class`. -/
def «class» (value : String) : CssSelectorCreator × Option String :=
  CssSelectorCreator.new.«class» value

/-- The facade method `cssSelectorBuilder.attr`. -/
def attr (value : String) : CssSelectorCreator × Option String :=
  CssSelectorCreator.new.attr value

/-- The facade method `cssSelectorBuilder.pseudoClass`. -/
def pseudoClass (value : String) : CssSelectorCreator × Option String :=
  CssSelectorCreator.new.pseudoClass value

/-- The facade method `cssSelectorBuilder.pseudoElement`. -/
def pseudoElement (value : String) : CssSelectorCreator × Option String :=
  CssSelectorCreator.new.pseudoElement value

/-- The facade method `cssSelectorBuilder.combine`. -/
def combine (selector1 : CssSelectorCreator) (combinator : String)
    (selector2 : CssSelectorCreator) : CssSelectorCreator × Option String :=
  CssSelectorCreator.new.combine selector1 combinator selector2

end cssSelectorBuilder

/-- Concatenation of `n` copies of a token. -/
def flatRep (n : Nat) (t : List Char) : List Char := (List.replicate n t).flatten

/-! ### The recorded kind sequence as a string -/

/-- Character list of a kind tag. -/
def kindChars (k : Kind) : List Char := (kindName k).data

/-- Character list of the `creationOrder` string after the recorded kind
sequence `ks`. -/
def listOfKinds (ks : List Kind) : List Char := (ks.map kindChars).flatten

/-- The `creationOrder` string after the recorded kind sequence `ks`. -/
def stringOfKinds (ks : List Kind) : String := String.mk (listOfKinds ks)

/-- The canonical-order kind sequence with the given multiplicities. -/
def nfList (e i c a p q : Nat) : List Kind :=
  List.replicate e .element ++ List.replicate i .id ++
    List.replicate c .«class» ++ List.replicate a .attr ++
    List.replicate p .pseudoClass ++ List.replicate q .pseudoElement

/-- A kind sequence obeys the canonical-order grammar
`element? id? class* attr* pseudo-class* pseudo-element?`. -/
def grammarMatch (ks : List Kind) : Prop :=
  ∃ e i c a p q : Nat, e ≤ 1 ∧ i ≤ 1 ∧ q ≤ 1 ∧ ks = nfList e i c a p q

/-- Adjacent-pair search: true iff `a` immediately followed by `b` occurs. -/
def hasPair (a b : Char) : List Char → Bool
  | [] => false
  | [_] => false
  | x :: y :: l => (decide (x = a) && decide (y = b)) || hasPair a b (y :: l)

/-! ### Running a homogeneous segment of part calls -/

/-- The call list of a list of parts (kind, value). -/
def partsCalls (ps : List (Kind × String)) : List Call :=
  ps.map fun p => Call.part p.1 p.2

/-- Concatenation, in call order, of the rendered fragments of a part list. -/
def concatFragments (ps : List (Kind × String)) : String :=
  ps.foldr (fun p acc => fragment p.1 p.2 ++ acc) ""

/-! ### Additional definitions for claims C4 and C7 -/

/-- Position of a kind in the canonical order. -/
def canonRank : Kind → Nat
  | .element => 0
  | .id => 1
  | .«class» => 2
  | .attr => 3
  | .pseudoClass => 4
  | .pseudoElement => 5

/-- Interleaved execution of two independent call chains, each on its own
builder: a schedule entry `(side, c)` applies `c` to the builder of that
side. -/
def runPair (pq : (CssSelectorCreator × Option String) ×
    (CssSelectorCreator × Option String)) :
    List (Bool × Call) →
      (CssSelectorCreator × Option String) ×
        (CssSelectorCreator × Option String)
  | [] => pq
  | (side, c) :: rest =>
    runPair (if side then (stepCall pq.1 c, pq.2) else (pq.1, stepCall pq.2 c))
      rest

/-- The calls a schedule sends to one side. -/
def sideCalls (side : Bool) (sched : List (Bool × Call)) : List Call :=
  (sched.filter fun sc => sc.1 = side).map Prod.snd

/-! ### The serialization collaborators: getJSON / fromJSON

`getJSON(obj)` is `JSON.stringify(obj)` and `fromJSON(proto, json)` is
`Object.setPrototypeOf(JSON.parse(json), proto)`.  The JSON value space is
modelled by the inductive `Json` (numbers as integers — the float formatting
of JS numbers is outside this shallow embedding).  `Object.setPrototypeOf`
acts only on objects: it replaces the prototype of an array or plain object
(`JSResult.objWith`), returns a number, string or boolean unchanged
(`JSResult.prim`), and throws a `TypeError` on `null`.  `jsonStringify`
follows `JSON.stringify` (no indentation: no whitespace; strings escaped
with `\"`, `\\`, the five short control escapes and `\u00XX` for the other
control characters); `jsonParse` is a recursive-descent reader of that
grammar which returns `none` where `JSON.parse` would throw.  It is exact on
every output of `jsonStringify`; on malformed text it may be slightly more
permissive than `JSON.parse` (e.g. trailing commas), which no claim
depends on. -/

inductive Json where
  | null
  | bool (b : Bool)
  | num (n : Int)
  | str (s : String)
  | arr (elems : List Json)
  | obj (fields : List (String × Json))

/-- Hexadecimal digit characters (lowercase, as emitted by
`JSON.stringify`). -/
def hexDigitChar : Nat → Char
  | 0 => '0' | 1 => '1' | 2 => '2' | 3 => '3' | 4 => '4'
  | 5 => '5' | 6 => '6' | 7 => '7' | 8 => '8' | 9 => '9'
  | 10 => 'a' | 11 => 'b' | 12 => 'c' | 13 => 'd' | 14 => 'e' | 15 => 'f'
  | _ => '0'

/-- Decimal digit list of a natural number (fuelled helper). -/
def natCharsAux : Nat → Nat → List Char
  | 0, _ => []
  | fuel + 1, n =>
    if n < 10 then [hexDigitChar n]
    else natCharsAux fuel (n / 10) ++ [hexDigitChar (n % 10)]

/-- Decimal digit list of a natural number. -/
def natChars (n : Nat) : List Char := natCharsAux (n + 1) n

/-- Decimal representation of an integer. -/
def intChars : Int → List Char
  | .ofNat n => natChars n
  | .negSucc m => '-' :: natChars (m + 1)

/-- The escape sequence `JSON.stringify` emits for one character. -/
def escChar (c : Char) : List Char :=
  if c = '\"' then ['\\', '\"']
  else if c = '\\' then ['\\', '\\']
  else if c = '\u0008' then ['\\', 'b']
  else if c = '\t' then ['\\', 't']
  else if c = '\n' then ['\\', 'n']
  else if c = '\u000C' then ['\\', 'f']
  else if c = '\r' then ['\\', 'r']
  else if c.toNat < 32 then
    ['\\', 'u', '0', '0', hexDigitChar (c.toNat / 16),
      hexDigitChar (c.toNat % 16)]
  else [c]

/-- Escaped body of a JSON string literal. -/
def escString : List Char → List Char
  | [] => []
  | c :: cs => escChar c ++ escString cs

mutual

/-- The characters `JSON.stringify` produces for a value. -/
def printJson : Json → List Char
  | .null => 'n' :: 'u' :: 'l' :: 'l' :: []
  | .bool true => 't' :: 'r' :: 'u' :: 'e' :: []
  | .bool false => 'f' :: 'a' :: 'l' :: 's' :: 'e' :: []
  | .num n => intChars n
  | .str s => '\"' :: escString s.data ++ ['\"']
  | .arr xs => '[' :: printElems xs ++ [']']
  | .obj fs => '\u007B' :: printFields fs ++ ['\u007D']
termination_by v => sizeOf v

/-- Comma-separated array elements. -/
def printElems : List Json → List Char
  | [] => []
  | [x] => printJson x
  | x :: y :: rest => printJson x ++ ',' :: printElems (y :: rest)
termination_by xs => sizeOf xs

/-- Comma-separated object members (`"key":value`). -/
def printFields : List (String × Json) → List Char
  | [] => []
  | [(k, v)] => '\"' :: escString k.data ++ '\"' :: ':' :: printJson v
  | (k, v) :: g :: rest =>
    ('\"' :: escString k.data ++ '\"' :: ':' :: printJson v) ++
      ',' :: printFields (g :: rest)
termination_by fs => sizeOf fs

end

/-- Value of a hexadecimal digit character. -/
def hexVal (c : Char) : Option Nat :=
  if '0' ≤ c && c ≤ '9' then some (c.toNat - 48)
  else if 'a' ≤ c && c ≤ 'f' then some (c.toNat - 87)
  else if 'A' ≤ c && c ≤ 'F' then some (c.toNat - 55)
  else none

def isDigitCh (c : Char) : Bool := '0' ≤ c && c ≤ '9'

def digitVal (c : Char) : Nat := c.toNat - 48

/-- Read a maximal run of decimal digits, accumulating their value. -/
def parseDigits : List Char → Nat → Nat × List Char
  | c :: rest, acc =>
    if isDigitCh c then parseDigits rest (acc * 10 + digitVal c)
    else (acc, c :: rest)
  | [], acc => (acc, [])

def headIsDigit : List Char → Bool
  | c :: _ => isDigitCh c
  | [] => false

/-- Read an optionally negated decimal integer. -/
def parseIntChars (s : List Char) : Option (Int × List Char) :=
  if s.head? = some '-' then
    match s with
    | _ :: rest =>
      if headIsDigit rest then
        some (-((parseDigits rest 0).1 : Int), (parseDigits rest 0).2)
      else none
    | [] => none
  else if headIsDigit s then
    some (((parseDigits s 0).1 : Int), (parseDigits s 0).2)
  else none

/-- Decode one escape sequence after a backslash: the denoted character and
the remaining input. -/
def escDecode : List Char → Option (Char × List Char)
  | '\"' :: r => some ('\"', r)
  | '\\' :: r => some ('\\', r)
  | '/' :: r => some ('/', r)
  | 'b' :: r => some ('\u0008', r)
  | 't' :: r => some ('\t', r)
  | 'n' :: r => some ('\n', r)
  | 'f' :: r => some ('\u000C', r)
  | 'r' :: r => some ('\r', r)
  | 'u' :: h1 :: h2 :: h3 :: h4 :: r =>
    match hexVal h1, hexVal h2, hexVal h3, hexVal h4 with
    | some a, some b, some c2, some d =>
      some (Char.ofNat (a * 4096 + b * 256 + c2 * 16 + d), r)
    | _, _, _, _ => none
  | _ => none

/-- Read the body of a JSON string literal after the opening quote, up to and
including the closing quote; yields the unescaped characters. -/
def parseStringBody : Nat → List Char → Option (List Char × List Char)
  | 0, _ => none
  | fuel + 1, s =>
    match s with
    | [] => none
    | c :: rest =>
      if c = '\"' then some ([], rest)
      else if c = '\\' then
        (escDecode rest).bind fun p =>
          (parseStringBody fuel p.2).map fun q => (p.1 :: q.1, q.2)
      else (parseStringBody fuel rest).map fun q => (c :: q.1, q.2)

mutual

/-- Read one JSON value. -/
def parseValue : Nat → List Char → Option (Json × List Char)
  | 0, _ => none
  | fuel + 1, s =>
    match s with
    | [] => none
    | c :: r =>
      if c = 'n' then
        if r.take 3 = ['u', 'l', 'l'] then some (.null, r.drop 3) else none
      else if c = 't' then
        if r.take 3 = ['r', 'u', 'e'] then some (.bool true, r.drop 3)
        else none
      else if c = 'f' then
        if r.take 4 = ['a', 'l', 's', 'e'] then some (.bool false, r.drop 4)
        else none
      else if c = '\"' then
        (parseStringBody (r.length + 1) r).map fun p => (.str ⟨p.1⟩, p.2)
      else if c = '[' then (parseElems fuel r).map fun p => (.arr p.1, p.2)
      else if c = '\u007B' then
        (parseFields fuel r).map fun p => (.obj p.1, p.2)
      else (parseIntChars (c :: r)).map fun p => (.num p.1, p.2)

/-- Read array elements up to and including the closing bracket. -/
def parseElems : Nat → List Char → Option (List Json × List Char)
  | 0, _ => none
  | fuel + 1, s =>
    if s.head? = some ']' then some ([], s.tail)
    else
      (parseValue fuel s).bind fun p =>
        if p.2.head? = some ',' then
          (parseElems fuel p.2.tail).map fun q => (p.1 :: q.1, q.2)
        else if p.2.head? = some ']' then some ([p.1], p.2.tail)
        else none

/-- Read object members up to and including the closing brace. -/
def parseFields : Nat → List Char → Option (List (String × Json) × List Char)
  | 0, _ => none
  | fuel + 1, s =>
    if s.head? = some '\u007D' then some ([], s.tail)
    else if s.head? = some '\"' then
      (parseStringBody (s.tail.length + 1) s.tail).bind fun kp =>
        if kp.2.head? = some ':' then
          (parseValue fuel kp.2.tail).bind fun vp =>
            if vp.2.head? = some ',' then
              (parseFields fuel vp.2.tail).map fun q =>
                ((⟨kp.1⟩, vp.1) :: q.1, q.2)
            else if vp.2.head? = some '\u007D' then
              some ([(⟨kp.1⟩, vp.1)], vp.2.tail)
            else none
        else none
    else none

end

/-- `JSON.stringify`. -/
def jsonStringify (v : Json) : String := ⟨printJson v⟩

/-- The function `getJSON(obj)`: `JSON.stringify(obj)`. -/
def getJSON (v : Json) : String := jsonStringify v

/-- `JSON.parse` (throwing modelled as `none`; the whole text must be
consumed). -/
def jsonParse (s : String) : Option Json :=
  match parseValue (s.data.length + 1) s.data with
  | some (v, []) => some v
  | _ => none

/-- What `Object.setPrototypeOf(x, proto)` returns when it does not throw:
an array or plain object whose prototype has been replaced by `proto`, or a
primitive returned unchanged — its behaviour still comes from its built-in
prototype, not from `proto`. -/
inductive JSResult (π : Type) where
  | prim (v : Json)
  | objWith (v : Json) (proto : π)

/-- `Object.setPrototypeOf(v, proto)`: throws a `TypeError` on `null`
(modelled as `none`), returns a number, string or boolean unchanged, and
replaces the prototype of an array or plain object. -/
def setPrototypeOf {π : Type} (v : Json) (proto : π) : Option (JSResult π) :=
  match v with
  | .null => none
  | .bool b => some (.prim (.bool b))
  | .num n => some (.prim (.num n))
  | .str s => some (.prim (.str s))
  | .arr xs => some (.objWith (.arr xs) proto)
  | .obj fs => some (.objWith (.obj fs) proto)

/-- The function `fromJSON(proto, json)`:
`Object.setPrototypeOf(JSON.parse(json), proto)`. -/
def fromJSON {π : Type} (proto : π) (json : String) : Option (JSResult π) :=
  (jsonParse json).bind fun v => setPrototypeOf v proto

/-! ### Specifications of the string primitives -/

theorem isPreB_iff (t s : List Char) : isPreB t s = true ↔ t <+: s := by
  induction t generalizing s with
  | nil => simp [isPreB]
  | cons a as ih =>
    cases s with
    | nil => simp [isPreB]
    | cons b bs =>
      rw [List.cons_prefix_cons]
      simp only [isPreB, Bool.and_eq_true, decide_eq_true_eq, ih]

theorem isInfB_iff (t s : List Char) : isInfB t s = true ↔ t <:+: s := by
  induction s with
  | nil =>
    cases t with
    | nil => simp [isInfB, isPreB]
    | cons c cs => simp [isInfB, isPreB]
  | cons c s ih => simp [isInfB, List.infix_cons_iff, isPreB_iff, ih, or_comm]

theorem strInfix_iff (t s : String) : strInfix t s = true ↔ t.data <:+: s.data :=
  isInfB_iff t.data s.data

theorem stripPre_eq_some (t s r : List Char) :
    stripPre t s = some r ↔ s = t ++ r := by
  induction t generalizing s with
  | nil => simp [stripPre, eq_comm]
  | cons a as ih =>
    cases s with
    | nil => simp [stripPre]
    | cons b bs =>
      by_cases hab : a = b
      · subst hab; simp [stripPre, ih]
      · simp [stripPre, hab, Ne.symm hab]

theorem stripPre_append (t r : List Char) : stripPre t (t ++ r) = some r :=
  (stripPre_eq_some t (t ++ r) r).mpr rfl

theorem stripPre_eq_none (t s : List Char) :
    stripPre t s = none ↔ ¬ t <+: s := by
  constructor
  · intro h ⟨r, hr⟩
    have := (stripPre_eq_some t s r).mpr hr.symm
    simp [h] at this
  · intro h
    cases hs : stripPre t s with
    | none => rfl
    | some r => exact absurd ⟨r, ((stripPre_eq_some t s r).mp hs).symm⟩ h

theorem stripOpt_append (t r : List Char) : stripOpt t (t ++ r) = r := by
  simp [stripOpt, stripPre_append]

theorem stripOpt_of_not_prefix (t s : List Char) (h : ¬ t <+: s) :
    stripOpt t s = s := by
  simp [stripOpt, (stripPre_eq_none t s).mpr h]

theorem stripOpt_decomp (t s : List Char) :
    s = stripOpt t s ∨ s = t ++ stripOpt t s := by
  cases hs : stripPre t s with
  | none => left; simp [stripOpt, hs]
  | some r => right; simpa [stripOpt, hs] using (stripPre_eq_some t s r).mp hs

theorem flatRep_zero (t : List Char) : flatRep 0 t = [] := rfl

theorem flatRep_succ (n : Nat) (t : List Char) :
    flatRep (n + 1) t = t ++ flatRep n t := by
  simp [flatRep, List.replicate_succ]

theorem flatRep_one (t : List Char) : flatRep 1 t = t := by
  simp [flatRep]

theorem flatRep_length (n : Nat) (t : List Char) :
    (flatRep n t).length = n * t.length := by
  induction n with
  | zero => simp [flatRep_zero]
  | succ n ih => simp [flatRep_succ, ih, Nat.succ_mul, Nat.add_comm]

theorem stripStar_decomp (fuel : Nat) (t : List Char) :
    ∀ s, ∃ n, s = flatRep n t ++ stripStar fuel t s := by
  induction fuel with
  | zero => intro s; exact ⟨0, by simp [stripStar, flatRep_zero]⟩
  | succ fuel ih =>
    intro s
    cases hs : stripPre t s with
    | none => exact ⟨0, by simp [stripStar, hs, flatRep_zero]⟩
    | some r =>
      obtain ⟨n, hn⟩ := ih r
      refine ⟨n + 1, ?_⟩
      rw [stripStar, hs]
      rw [(stripPre_eq_some t s r).mp hs, flatRep_succ, List.append_assoc]
      exact congrArg (t ++ ·) hn

theorem stripStar_exact (t : List Char) :
    ∀ (c fuel : Nat) (r : List Char), c ≤ fuel → ¬ t <+: r →
      stripStar fuel t (flatRep c t ++ r) = r := by
  intro c
  induction c with
  | zero =>
    intro fuel r _ hr
    cases fuel with
    | zero => simp [stripStar, flatRep_zero]
    | succ fuel => simp [stripStar, flatRep_zero, (stripPre_eq_none t r).mpr hr]
  | succ c ih =>
    intro fuel r hc hr
    cases fuel with
    | zero => omega
    | succ fuel =>
      rw [flatRep_succ, List.append_assoc, stripStar, stripPre_append]
      exact ih fuel r (by omega) hr

theorem data_stringOfKinds (ks : List Kind) :
    (stringOfKinds ks).data = listOfKinds ks := rfl

theorem listOfKinds_nil : listOfKinds [] = [] := rfl

theorem listOfKinds_cons (k : Kind) (ks : List Kind) :
    listOfKinds (k :: ks) = kindChars k ++ listOfKinds ks := by
  simp [listOfKinds]

theorem listOfKinds_append (ks ks' : List Kind) :
    listOfKinds (ks ++ ks') = listOfKinds ks ++ listOfKinds ks' := by
  simp [listOfKinds]

theorem listOfKinds_replicate (n : Nat) (k : Kind) :
    listOfKinds (List.replicate n k) = flatRep n (kindChars k) := by
  simp [listOfKinds, flatRep, List.map_replicate]

theorem stringOfKinds_append_kind (ks : List Kind) (k : Kind) :
    stringOfKinds ks ++ kindName k = stringOfKinds (ks ++ [k]) := by
  apply String.ext
  show (stringOfKinds ks).data ++ (kindName k).data = _
  simp [data_stringOfKinds, listOfKinds_append, listOfKinds_cons, listOfKinds_nil,
    kindChars]

theorem stringOfKinds_nil : stringOfKinds [] = "" := rfl

theorem listOfKinds_nfList (e i c a p q : Nat) :
    listOfKinds (nfList e i c a p q) =
      flatRep e "element".data ++ (flatRep i "id".data ++
        (flatRep c "class".data ++ (flatRep a "attr".data ++
          (flatRep p "pseudo-class".data ++ flatRep q "pseudo-element".data)))) := by
  simp only [nfList, listOfKinds_append, listOfKinds_replicate, List.append_assoc]
  rfl

/-! ### Unique decodability of the six tags -/

theorem kindChars_ne_nil : ∀ k : Kind, kindChars k ≠ [] := by
  intro k; cases k <;> decide

theorem kindChars_prefix_inj :
    ∀ k k' : Kind, kindChars k <+: kindChars k' → k = k' := by
  intro k k'; cases k <;> cases k' <;> decide

theorem listOfKinds_inj :
    ∀ ks ks' : List Kind, listOfKinds ks = listOfKinds ks' → ks = ks' := by
  intro ks
  induction ks with
  | nil =>
    intro ks' h
    cases ks' with
    | nil => rfl
    | cons b bs =>
      rw [listOfKinds_nil, listOfKinds_cons] at h
      exact absurd (List.append_eq_nil.mp h.symm).1 (kindChars_ne_nil b)
  | cons a as ih =>
    intro ks' h
    cases ks' with
    | nil =>
      rw [listOfKinds_nil, listOfKinds_cons] at h
      exact absurd (List.append_eq_nil.mp h).1 (kindChars_ne_nil a)
    | cons b bs =>
      rw [listOfKinds_cons, listOfKinds_cons] at h
      have hab : a = b := by
        rcases List.prefix_or_prefix_of_prefix
            (⟨listOfKinds as, rfl⟩ : kindChars a <+: kindChars a ++ listOfKinds as)
            (h ▸ ⟨listOfKinds bs, rfl⟩ : kindChars b <+: kindChars a ++ listOfKinds as)
          with hp | hp
        · exact kindChars_prefix_inj a b hp
        · exact (kindChars_prefix_inj b a hp).symm
      subst hab
      rw [ih bs (List.append_cancel_left h)]

/-! ### Soundness of the greedy order recogniser -/

theorem validOrderChars_sound (s : List Char) (h : validOrderChars s = true) :
    ∃ e i c a p q : Nat, e ≤ 1 ∧ i ≤ 1 ∧ q ≤ 1 ∧
      s = flatRep e "element".data ++ (flatRep i "id".data ++
        (flatRep c "class".data ++ (flatRep a "attr".data ++
          (flatRep p "pseudo-class".data ++ flatRep q "pseudo-element".data)))) := by
  rw [validOrderChars] at h
  rcases stripOpt_decomp "element".data s with h1 | h1 <;>
  [refine ⟨0, ?_⟩; refine ⟨1, ?_⟩] <;>
  · generalize hs1 : stripOpt "element".data s = s1 at h h1
    rcases stripOpt_decomp "id".data s1 with h2 | h2 <;>
    [refine ⟨0, ?_⟩; refine ⟨1, ?_⟩] <;>
    · generalize hs2 : stripOpt "id".data s1 = s2 at h h2
      obtain ⟨c, h3⟩ := stripStar_decomp s2.length "class".data s2
      refine ⟨c, ?_⟩
      generalize hs3 : stripStar s2.length "class".data s2 = s3 at h h3
      obtain ⟨a, h4⟩ := stripStar_decomp s3.length "attr".data s3
      refine ⟨a, ?_⟩
      generalize hs4 : stripStar s3.length "attr".data s3 = s4 at h h4
      obtain ⟨p, h5⟩ := stripStar_decomp s4.length "pseudo-class".data s4
      refine ⟨p, ?_⟩
      generalize hs5 : stripStar s4.length "pseudo-class".data s4 = s5 at h h5
      rcases stripOpt_decomp "pseudo-element".data s5 with h6 | h6 <;>
      [refine ⟨0, ?_⟩; refine ⟨1, ?_⟩] <;>
      · generalize hs6 : stripOpt "pseudo-element".data s5 = s6 at h h6
        have hnil : s6 = [] := by simpa using h
        subst hnil
        simp only [flatRep_zero, flatRep_one, List.nil_append, List.append_nil] at *
        refine ⟨by omega, by omega, by omega, ?_⟩
        simp [h1, h2, h3, h4, h5, h6]

/-! ### Completeness of the greedy order recogniser on canonical strings -/

theorem headFlat (n : Nat) (t r : List Char) (c : Char) (ht : t.head? = some c)
    (P : Char → Prop) (hc : P c) (hr : ∀ x, r.head? = some x → P x) :
    ∀ x, (flatRep n t ++ r).head? = some x → P x := by
  cases n with
  | zero =>
    intro x hx
    rw [flatRep_zero, List.nil_append] at hx
    exact hr x hx
  | succ n =>
    intro x hx
    rw [flatRep_succ, List.append_assoc, List.head?_append, ht] at hx
    have hred : (some c).or ((flatRep n t ++ r).head?) = some c := rfl
    rw [hred, Option.some.injEq] at hx
    exact hx ▸ hc

theorem not_prefix_of_head (t s : List Char) (c : Char) (ht : t.head? = some c)
    (hs : ∀ x, s.head? = some x → x ≠ c) : ¬ t <+: s := by
  rintro ⟨r, rfl⟩
  rw [List.head?_append] at hs
  cases t with
  | nil => simp at ht
  | cons a as =>
    simp only [List.head?_cons, Option.some.injEq] at ht
    exact hs a (by simp) ht

theorem validOrderChars_complete (e i c a p q : Nat)
    (he : e ≤ 1) (hi : i ≤ 1) (hq : q ≤ 1) :
    validOrderChars (flatRep e "element".data ++ (flatRep i "id".data ++
      (flatRep c "class".data ++ (flatRep a "attr".data ++
        (flatRep p "pseudo-class".data ++ flatRep q "pseudo-element".data))))) =
      true := by
  have hQ : ∀ x, (flatRep q "pseudo-element".data).head? = some x → x = 'p' := by
    have h0 := headFlat q "pseudo-element".data [] 'p' rfl (· = 'p') rfl
      (by intro x hx; simp at hx)
    rw [List.append_nil] at h0
    exact h0
  have hP : ∀ x, (flatRep p "pseudo-class".data ++
      flatRep q "pseudo-element".data).head? = some x → x = 'p' :=
    headFlat p "pseudo-class".data (flatRep q "pseudo-element".data) 'p' rfl
      (· = 'p') rfl hQ
  have hA : ∀ x, (flatRep a "attr".data ++ (flatRep p "pseudo-class".data ++
      flatRep q "pseudo-element".data)).head? = some x → x = 'a' ∨ x = 'p' :=
    headFlat a "attr".data
      (flatRep p "pseudo-class".data ++ flatRep q "pseudo-element".data) 'a' rfl
      (fun x => x = 'a' ∨ x = 'p') (Or.inl rfl) (fun x hx => Or.inr (hP x hx))
  have hC : ∀ x, (flatRep c "class".data ++ (flatRep a "attr".data ++
      (flatRep p "pseudo-class".data ++
        flatRep q "pseudo-element".data))).head? = some x →
      x = 'c' ∨ x = 'a' ∨ x = 'p' :=
    headFlat c "class".data
      (flatRep a "attr".data ++ (flatRep p "pseudo-class".data ++
        flatRep q "pseudo-element".data)) 'c' rfl
      (fun x => x = 'c' ∨ x = 'a' ∨ x = 'p') (Or.inl rfl)
      (fun x hx => Or.inr (hA x hx))
  have hI : ∀ x, (flatRep i "id".data ++ (flatRep c "class".data ++
      (flatRep a "attr".data ++ (flatRep p "pseudo-class".data ++
        flatRep q "pseudo-element".data)))).head? = some x →
      x = 'i' ∨ x = 'c' ∨ x = 'a' ∨ x = 'p' :=
    headFlat i "id".data
      (flatRep c "class".data ++ (flatRep a "attr".data ++
        (flatRep p "pseudo-class".data ++ flatRep q "pseudo-element".data)))
      'i' rfl
      (fun x => x = 'i' ∨ x = 'c' ∨ x = 'a' ∨ x = 'p') (Or.inl rfl)
      (fun x hx => Or.inr (hC x hx))
  have e1 : stripOpt "element".data (flatRep e "element".data ++
      (flatRep i "id".data ++ (flatRep c "class".data ++
        (flatRep a "attr".data ++ (flatRep p "pseudo-class".data ++
          flatRep q "pseudo-element".data))))) =
      flatRep i "id".data ++ (flatRep c "class".data ++
        (flatRep a "attr".data ++ (flatRep p "pseudo-class".data ++
          flatRep q "pseudo-element".data))) := by
    interval_cases e
    · rw [flatRep_zero, List.nil_append]
      refine stripOpt_of_not_prefix _ _
        (not_prefix_of_head "element".data _ 'e' rfl ?_)
      intro x hx heq
      subst heq
      rcases hI _ hx with h | h | h | h <;> simp at h
    · rw [flatRep_one]
      exact stripOpt_append _ _
  have e2 : stripOpt "id".data (flatRep i "id".data ++
      (flatRep c "class".data ++ (flatRep a "attr".data ++
        (flatRep p "pseudo-class".data ++ flatRep q "pseudo-element".data)))) =
      flatRep c "class".data ++ (flatRep a "attr".data ++
        (flatRep p "pseudo-class".data ++ flatRep q "pseudo-element".data)) := by
    interval_cases i
    · rw [flatRep_zero, List.nil_append]
      refine stripOpt_of_not_prefix _ _
        (not_prefix_of_head "id".data _ 'i' rfl ?_)
      intro x hx heq
      subst heq
      rcases hC _ hx with h | h | h <;> simp at h
    · rw [flatRep_one]
      exact stripOpt_append _ _
  have e3 : stripStar (flatRep c "class".data ++ (flatRep a "attr".data ++
        (flatRep p "pseudo-class".data ++
          flatRep q "pseudo-element".data))).length "class".data
      (flatRep c "class".data ++ (flatRep a "attr".data ++
        (flatRep p "pseudo-class".data ++ flatRep q "pseudo-element".data))) =
      flatRep a "attr".data ++ (flatRep p "pseudo-class".data ++
        flatRep q "pseudo-element".data) := by
    refine stripStar_exact _ c _ _ ?_
      (not_prefix_of_head "class".data _ 'c' rfl ?_)
    · rw [List.length_append, flatRep_length]
      have h5 : "class".data.length = 5 := rfl
      rw [h5]
      omega
    · intro x hx heq
      subst heq
      rcases hA _ hx with h | h <;> simp at h
  have e4 : stripStar (flatRep a "attr".data ++
        (flatRep p "pseudo-class".data ++
          flatRep q "pseudo-element".data)).length "attr".data
      (flatRep a "attr".data ++ (flatRep p "pseudo-class".data ++
        flatRep q "pseudo-element".data)) =
      flatRep p "pseudo-class".data ++ flatRep q "pseudo-element".data := by
    refine stripStar_exact _ a _ _ ?_
      (not_prefix_of_head "attr".data _ 'a' rfl ?_)
    · rw [List.length_append, flatRep_length]
      have h4 : "attr".data.length = 4 := rfl
      rw [h4]
      omega
    · intro x hx heq
      subst heq
      exact absurd (hP _ hx) (by simp)
  have e5 : stripStar (flatRep p "pseudo-class".data ++
        flatRep q "pseudo-element".data).length "pseudo-class".data
      (flatRep p "pseudo-class".data ++ flatRep q "pseudo-element".data) =
      flatRep q "pseudo-element".data := by
    refine stripStar_exact _ p _ _ ?_ ?_
    · rw [List.length_append, flatRep_length]
      have h12 : "pseudo-class".data.length = 12 := rfl
      rw [h12]
      omega
    · interval_cases q
      · rw [flatRep_zero]
        simp [List.prefix_nil]
      · rw [flatRep_one]
        decide
  have e6 : stripOpt "pseudo-element".data
      (flatRep q "pseudo-element".data) = [] := by
    interval_cases q
    · rw [flatRep_zero]
      decide
    · rw [flatRep_one]
      have h0 := stripOpt_append "pseudo-element".data []
      rwa [List.append_nil] at h0
  simp only [validOrderChars]
  rw [e1, e2, e3, e4, e5, e6]
  rfl

/-- The order test on a recorded kind sequence accepts exactly the
canonical-order sequences. -/
theorem validOrderPattern_iff (ks : List Kind) :
    validOrderPattern (stringOfKinds ks) = true ↔ grammarMatch ks := by
  constructor
  · intro h
    rw [validOrderPattern, data_stringOfKinds] at h
    obtain ⟨e, i, c, a, p, q, he, hi, hq, hs⟩ := validOrderChars_sound _ h
    refine ⟨e, i, c, a, p, q, he, hi, hq, ?_⟩
    apply listOfKinds_inj
    rw [hs, listOfKinds_nfList]
  · rintro ⟨e, i, c, a, p, q, he, hi, hq, rfl⟩
    rw [validOrderPattern, data_stringOfKinds, listOfKinds_nfList]
    exact validOrderChars_complete e i c a p q he hi hq

/-! ### The duplicate-check substring tests on recorded kind sequences -/

theorem mem_listOfKinds {x : Char} {ks : List Kind} :
    x ∈ listOfKinds ks ↔ ∃ k ∈ ks, x ∈ kindChars k := by
  simp [listOfKinds, List.mem_flatten]

theorem kindChars_infix_of_mem {k : Kind} {ks : List Kind} (h : k ∈ ks) :
    kindChars k <:+: listOfKinds ks := by
  obtain ⟨s, t, rfl⟩ := List.append_of_mem h
  rw [listOfKinds_append, listOfKinds_cons]
  exact ⟨listOfKinds s, listOfKinds t, by simp⟩

theorem infix_element_iff (ks : List Kind) :
    "element".data <:+: listOfKinds ks ↔
      Kind.element ∈ ks ∨ Kind.pseudoElement ∈ ks := by
  constructor
  · intro h
    have hm : 'm' ∈ listOfKinds ks := h.subset (by decide)
    obtain ⟨k, hk, hmk⟩ := mem_listOfKinds.mp hm
    have : k = Kind.element ∨ k = Kind.pseudoElement := by
      cases k <;> simp at hmk ⊢ <;> exact absurd hmk (by decide)
    rcases this with rfl | rfl
    · exact Or.inl hk
    · exact Or.inr hk
  · rintro (h | h)
    · exact kindChars_infix_of_mem h
    · exact List.IsInfix.trans (by decide) (kindChars_infix_of_mem h)

theorem infix_id_iff (ks : List Kind) :
    "id".data <:+: listOfKinds ks ↔ Kind.id ∈ ks := by
  constructor
  · intro h
    have hm : 'i' ∈ listOfKinds ks := h.subset (by decide)
    obtain ⟨k, hk, hmk⟩ := mem_listOfKinds.mp hm
    have : k = Kind.id := by
      cases k <;> simp at hmk ⊢ <;> exact absurd hmk (by decide)
    exact this ▸ hk
  · exact kindChars_infix_of_mem

theorem hasPair_append (a b : Char) (l m : List Char) :
    hasPair a b (l ++ m) =
      (hasPair a b l || hasPair a b m ||
        (decide (l.getLast? = some a) && decide (m.head? = some b))) := by
  induction l with
  | nil => simp [hasPair]
  | cons x l ih =>
    cases l with
    | nil =>
      cases m with
      | nil => simp [hasPair]
      | cons y m' =>
        simp only [List.singleton_append, hasPair, List.getLast?_singleton,
          List.head?_cons, Option.some.injEq]
        cases hxa : decide (x = a) <;> cases hyb : decide (y = b) <;>
          simp_all
    | cons y l' =>
      have ih' := ih
      rw [List.cons_append] at ih'
      simp only [List.cons_append, hasPair, List.append_eq,
        List.getLast?_cons_cons, ih', Bool.or_assoc]

theorem hasPair_of_infix (a b : Char) {t s : List Char} (h : t <:+: s)
    (hp : hasPair a b t = true) : hasPair a b s = true := by
  obtain ⟨u, v, rfl⟩ := h
  rw [hasPair_append, hasPair_append, hp]
  simp

theorem hasPair_dash_e_false {ks : List Kind} (h : Kind.pseudoElement ∉ ks) :
    hasPair '-' 'e' (listOfKinds ks) = false := by
  induction ks with
  | nil => simp [listOfKinds_nil, hasPair]
  | cons k ks ih =>
    have hk : k ≠ Kind.pseudoElement := fun hk => h (hk ▸ List.mem_cons_self k ks)
    have hks : Kind.pseudoElement ∉ ks := fun hm => h (List.mem_cons_of_mem k hm)
    rw [listOfKinds_cons, hasPair_append, ih hks]
    have h1 : hasPair '-' 'e' (kindChars k) = false := by
      cases k <;> first | rfl | exact absurd rfl hk
    have h2 : (kindChars k).getLast? ≠ some '-' := by
      cases k <;> decide
    simp [h1, h2]

theorem infix_pe_iff (ks : List Kind) :
    "pseudo-element".data <:+: listOfKinds ks ↔ Kind.pseudoElement ∈ ks := by
  constructor
  · intro h
    by_contra hmem
    have hfalse := hasPair_dash_e_false hmem
    have htrue := hasPair_of_infix '-' 'e' h (by decide)
    rw [htrue] at hfalse
    exact Bool.true_eq_false.mp hfalse
  · exact kindChars_infix_of_mem

/-- Value of `dupKindTest` on each tag. -/
theorem dupKindTest_kind : ∀ k : Kind,
    dupKindTest (kindName k) =
      decide (k = .element ∨ k = .id ∨ k = .pseudoElement) := by
  intro k; cases k <;> decide

/-- The duplicate test applied by a part call of kind `k` against a recorded
kind sequence `ks`. -/
theorem strInfix_kind_iff (k : Kind) (ks : List Kind) :
    strInfix (kindName k) (stringOfKinds ks) = true ↔
      kindChars k <:+: listOfKinds ks := by
  rw [strInfix_iff, data_stringOfKinds]
  exact Iff.rfl

/-! ### Behaviour of one part-appending call -/

theorem check_dup (st : CssSelectorCreator) (sel : String)
    (h1 : dupKindTest sel = true) (h2 : strInfix sel st.creationOrder = true) :
    st.checkSelectorStructure sel = (st, some noDuplicateSelectorsMessage) := by
  simp [CssSelectorCreator.checkSelectorStructure, h1, h2]

theorem check_pass (st : CssSelectorCreator) (sel : String)
    (h1 : dupKindTest sel = false ∨ strInfix sel st.creationOrder = false)
    (h2 : validOrderPattern (st.creationOrder ++ sel) = true) :
    st.checkSelectorStructure sel =
      ({ st with creationOrder := st.creationOrder ++ sel }, none) := by
  have hc : (dupKindTest sel && strInfix sel st.creationOrder) = false := by
    rcases h1 with h | h <;> simp [h]
  simp [CssSelectorCreator.checkSelectorStructure, hc, h2]

theorem check_order (st : CssSelectorCreator) (sel : String)
    (h1 : dupKindTest sel = false ∨ strInfix sel st.creationOrder = false)
    (h2 : validOrderPattern (st.creationOrder ++ sel) = false) :
    st.checkSelectorStructure sel =
      ({ st with creationOrder := st.creationOrder ++ sel },
        some selectorsOrderErrorMessage) := by
  have hc : (dupKindTest sel && strInfix sel st.creationOrder) = false := by
    rcases h1 with h | h <;> simp [h]
  simp [CssSelectorCreator.checkSelectorStructure, hc, h2]

theorem applyKind_dup (st : CssSelectorCreator) (k : Kind) (v : String)
    (h1 : dupKindTest (kindName k) = true)
    (h2 : strInfix (kindName k) st.creationOrder = true) :
    st.applyKind k v = (st, some noDuplicateSelectorsMessage) := by
  cases k <;> simp only [kindName] at h1 h2 <;>
    simp [CssSelectorCreator.applyKind, CssSelectorCreator.element,
      CssSelectorCreator.id, CssSelectorCreator.«class»,
      CssSelectorCreator.attr, CssSelectorCreator.pseudoClass,
      CssSelectorCreator.pseudoElement, check_dup _ _ h1 h2]

theorem applyKind_pass (st : CssSelectorCreator) (k : Kind) (v : String)
    (h1 : dupKindTest (kindName k) = false ∨
      strInfix (kindName k) st.creationOrder = false)
    (h2 : validOrderPattern (st.creationOrder ++ kindName k) = true) :
    st.applyKind k v =
      ({ selector := st.selector ++ fragment k v,
         creationOrder := st.creationOrder ++ kindName k }, none) := by
  cases k <;> simp only [kindName] at h1 h2 ⊢ <;>
    simp [CssSelectorCreator.applyKind, CssSelectorCreator.element,
      CssSelectorCreator.id, CssSelectorCreator.«class»,
      CssSelectorCreator.attr, CssSelectorCreator.pseudoClass,
      CssSelectorCreator.pseudoElement, check_pass _ _ h1 h2, fragment,
      String.append_assoc]

theorem applyKind_order (st : CssSelectorCreator) (k : Kind) (v : String)
    (h1 : dupKindTest (kindName k) = false ∨
      strInfix (kindName k) st.creationOrder = false)
    (h2 : validOrderPattern (st.creationOrder ++ kindName k) = false) :
    st.applyKind k v =
      ({ st with creationOrder := st.creationOrder ++ kindName k },
        some selectorsOrderErrorMessage) := by
  cases k <;> simp only [kindName] at h1 h2 ⊢ <;>
    simp [CssSelectorCreator.applyKind, CssSelectorCreator.element,
      CssSelectorCreator.id, CssSelectorCreator.«class»,
      CssSelectorCreator.attr, CssSelectorCreator.pseudoClass,
      CssSelectorCreator.pseudoElement, check_order _ _ h1 h2]

theorem applyKind_snd_eq_check_snd (st : CssSelectorCreator) (k : Kind)
    (v : String) :
    (st.applyKind k v).2 = (st.checkSelectorStructure (kindName k)).2 := by
  cases k <;>
    · rw [CssSelectorCreator.applyKind]
      first
      | rw [CssSelectorCreator.element]
      | rw [CssSelectorCreator.id]
      | rw [CssSelectorCreator.«class»]
      | rw [CssSelectorCreator.attr]
      | rw [CssSelectorCreator.pseudoClass]
      | rw [CssSelectorCreator.pseudoElement]
      rcases hc : st.checkSelectorStructure _ with ⟨st2, o⟩
      cases o <;> simp [kindName, hc]

theorem check_snd_creationOrder (st st' : CssSelectorCreator) (sel : String)
    (h : st.creationOrder = st'.creationOrder) :
    (st.checkSelectorStructure sel).2 = (st'.checkSelectorStructure sel).2 := by
  rw [CssSelectorCreator.checkSelectorStructure,
    CssSelectorCreator.checkSelectorStructure, h]
  by_cases hdup : (dupKindTest sel && strInfix sel st'.creationOrder) = true
  · simp [hdup]
  · rw [Bool.not_eq_true] at hdup
    by_cases hord : validOrderPattern (st'.creationOrder ++ sel) = true <;>
      simp [hdup, hord]

theorem applyKind_fst_creationOrder (st : CssSelectorCreator) (k : Kind)
    (v : String) :
    ((st.applyKind k v).1).creationOrder =
      ((st.checkSelectorStructure (kindName k)).1).creationOrder := by
  cases k <;>
    · rw [CssSelectorCreator.applyKind]
      first
      | rw [CssSelectorCreator.element]
      | rw [CssSelectorCreator.id]
      | rw [CssSelectorCreator.«class»]
      | rw [CssSelectorCreator.attr]
      | rw [CssSelectorCreator.pseudoClass]
      | rw [CssSelectorCreator.pseudoElement]
      rcases hc : st.checkSelectorStructure _ with ⟨st2, o⟩
      cases o <;> simp [kindName, hc]

theorem check_fst_creationOrder (st : CssSelectorCreator) (sel : String) :
    ∃ t, ((st.checkSelectorStructure sel).1).creationOrder =
      st.creationOrder ++ t := by
  rw [CssSelectorCreator.checkSelectorStructure]
  by_cases hdup : (dupKindTest sel && strInfix sel st.creationOrder) = true
  · exact ⟨"", by simp [hdup]⟩
  · rw [Bool.not_eq_true] at hdup
    by_cases hord : validOrderPattern (st.creationOrder ++ sel) = true <;>
      exact ⟨sel, by simp [hdup, hord]⟩

/-! ### Call chains -/

theorem runCalls_nil (st : CssSelectorCreator) : runCalls st [] = (st, none) :=
  rfl

theorem foldl_stepCall_err (cs : List Call) (st : CssSelectorCreator)
    (e : String) : cs.foldl stepCall (st, some e) = (st, some e) := by
  induction cs with
  | nil => rfl
  | cons c cs ih => rw [List.foldl_cons]; exact ih

theorem runCalls_cons (st : CssSelectorCreator) (c : Call) (cs : List Call) :
    runCalls st (c :: cs) =
      match applyCall st c with
      | (st', none) => runCalls st' cs
      | (st', some e) => (st', some e) := by
  rw [runCalls, List.foldl_cons]
  rcases h : applyCall st c with ⟨st', o⟩
  cases o with
  | none =>
    have hs : stepCall (st, none) c = (st', none) := by rw [stepCall, h]
    rw [hs]; rfl
  | some e =>
    have hs : stepCall (st, none) c = (st', some e) := by rw [stepCall, h]
    rw [hs]
    exact foldl_stepCall_err cs st' e

theorem runCalls_append_ok (st st' : CssSelectorCreator) (a b : List Call)
    (h : runCalls st a = (st', none)) :
    runCalls st (a ++ b) = runCalls st' b := by
  rw [runCalls, List.foldl_append, ← runCalls, h]; rfl

theorem applyCall_creationOrder (st : CssSelectorCreator) (c : Call) :
    ∃ t, ((applyCall st c).1).creationOrder = st.creationOrder ++ t := by
  cases c with
  | part k v =>
    obtain ⟨t, ht⟩ := check_fst_creationOrder st (kindName k)
    exact ⟨t, by rw [applyCall, applyKind_fst_creationOrder, ht]⟩
  | comb s1 cb s2 =>
    refine ⟨"", ?_⟩
    rw [applyCall, CssSelectorCreator.combine]
    by_cases hc : CssSelectorCreator.combinatorTest cb = true <;>
      simp [hc]

theorem runCalls_creationOrder (cs : List Call) :
    ∀ st : CssSelectorCreator,
      ∃ t, ((runCalls st cs).1).creationOrder = st.creationOrder ++ t := by
  induction cs with
  | nil => intro st; exact ⟨"", by simp [runCalls_nil]⟩
  | cons c cs ih =>
    intro st
    rw [runCalls_cons]
    rcases h : applyCall st c with ⟨st', o⟩
    obtain ⟨t, ht⟩ := applyCall_creationOrder st c
    rw [h] at ht
    cases o with
    | none =>
      obtain ⟨t', ht'⟩ := ih st'
      have ht2 : st'.creationOrder = st.creationOrder ++ t := ht
      exact ⟨t ++ t', by rw [ht', ht2, String.append_assoc]⟩
    | some e => exact ⟨t, ht⟩

theorem concatFragments_nil : concatFragments [] = "" := rfl

theorem concatFragments_cons (k : Kind) (v : String) (ps : List (Kind × String)) :
    concatFragments ((k, v) :: ps) = fragment k v ++ concatFragments ps := rfl

theorem runSeg (k : Kind) :
    ∀ (ps : List (Kind × String)), (∀ p ∈ ps, p.1 = k) →
    ∀ (ks : List Kind) (st : CssSelectorCreator),
      st.creationOrder = stringOfKinds ks →
      (∀ m, m < ps.length → dupKindTest (kindName k) = false ∨
        strInfix (kindName k) (stringOfKinds (ks ++ List.replicate m k)) = false) →
      (∀ m, m < ps.length → grammarMatch (ks ++ List.replicate (m + 1) k)) →
      runCalls st (partsCalls ps) =
        ({ selector := st.selector ++ concatFragments ps,
           creationOrder := stringOfKinds (ks ++ List.replicate ps.length k) },
         none) := by
  intro ps
  induction ps with
  | nil =>
    intro _ ks st hco _ _
    rcases st with ⟨sel, co⟩
    simp only [partsCalls, List.map_nil, runCalls_nil, concatFragments_nil,
      List.length_nil, List.replicate_zero, List.append_nil]
    simp only at hco
    rw [hco]
    simp
  | cons hd ps ih =>
    intro hkind ks st hco hdup hord
    obtain ⟨k0, v⟩ := hd
    have hk0 : k = k0 := (hkind (k0, v) (List.mem_cons_self _ _)).symm
    subst hk0
    have h1 : dupKindTest (kindName k) = false ∨
        strInfix (kindName k) st.creationOrder = false := by
      have h0 := hdup 0 (by simp)
      rwa [List.replicate_zero, List.append_nil, ← hco] at h0
    have h2 : validOrderPattern (st.creationOrder ++ kindName k) = true := by
      rw [hco, stringOfKinds_append_kind]
      refine (validOrderPattern_iff (ks ++ [k])).mpr ?_
      have h0 := hord 0 (by simp)
      rwa [List.replicate_one] at h0
    have happ := applyKind_pass st k v h1 h2
    rw [partsCalls, List.map_cons, runCalls_cons]
    have hac : applyCall st (Call.part k v) = st.applyKind k v := rfl
    rw [hac, happ]
    show runCalls
      ⟨st.selector ++ fragment k v, st.creationOrder ++ kindName k⟩
      (partsCalls ps) = _
    have hco2 : stringOfKinds (ks ++ [k]) =
        st.creationOrder ++ kindName k := by
      rw [hco, stringOfKinds_append_kind]
    have hrec := ih (fun p hp => hkind p (List.mem_cons_of_mem _ hp)) (ks ++ [k])
      { selector := st.selector ++ fragment k v,
        creationOrder := st.creationOrder ++ kindName k }
      (by simpa using hco2.symm)
      (by
        intro m hm
        have h0 := hdup (m + 1) (by simpa using Nat.succ_lt_succ hm)
        rwa [List.replicate_succ, ← List.singleton_append, ← List.append_assoc]
          at h0)
      (by
        intro m hm
        have h0 := hord (m + 1) (by simpa using Nat.succ_lt_succ hm)
        rwa [List.replicate_succ (n := m + 1), ← List.singleton_append,
          ← List.append_assoc] at h0)
    rw [hrec]
    simp only [concatFragments_cons, List.length_cons]
    rw [List.replicate_succ, ← List.singleton_append, ← List.append_assoc,
      String.append_assoc]
    simp [List.append_assoc]

/-! ### Building a whole canonical-order part list -/

theorem partsCalls_append (x y : List (Kind × String)) :
    partsCalls (x ++ y) = partsCalls x ++ partsCalls y := by
  simp [partsCalls]

theorem concatFragments_append (x y : List (Kind × String)) :
    concatFragments (x ++ y) = concatFragments x ++ concatFragments y := by
  induction x with
  | nil => simp [concatFragments_nil, String.empty_append]
  | cons hd tl ih =>
    obtain ⟨k, v⟩ := hd
    rw [List.cons_append, concatFragments_cons, concatFragments_cons, ih,
      String.append_assoc]

theorem strInfix_id_false (ks : List Kind) (h : Kind.id ∉ ks) :
    strInfix "id" (stringOfKinds ks) = false := by
  rw [Bool.eq_false_iff]
  intro htrue
  exact h ((infix_id_iff ks).mp ((strInfix_iff _ _).mp htrue))

theorem strInfix_element_false (ks : List Kind) (h1 : Kind.element ∉ ks)
    (h2 : Kind.pseudoElement ∉ ks) :
    strInfix "element" (stringOfKinds ks) = false := by
  rw [Bool.eq_false_iff]
  intro htrue
  rcases (infix_element_iff ks).mp ((strInfix_iff _ _).mp htrue) with h | h
  · exact h1 h
  · exact h2 h

theorem strInfix_pe_false (ks : List Kind) (h : Kind.pseudoElement ∉ ks) :
    strInfix "pseudo-element" (stringOfKinds ks) = false := by
  rw [Bool.eq_false_iff]
  intro htrue
  exact h ((infix_pe_iff ks).mp ((strInfix_iff _ _).mp htrue))

theorem runNF (e i c a p q : Nat) (he : e ≤ 1) (hi : i ≤ 1) (hq : q ≤ 1)
    (s1 s2 s3 s4 s5 s6 : List (Kind × String))
    (h1 : s1.map Prod.fst = List.replicate e Kind.element)
    (h2 : s2.map Prod.fst = List.replicate i Kind.id)
    (h3 : s3.map Prod.fst = List.replicate c Kind.«class»)
    (h4 : s4.map Prod.fst = List.replicate a Kind.attr)
    (h5 : s5.map Prod.fst = List.replicate p Kind.pseudoClass)
    (h6 : s6.map Prod.fst = List.replicate q Kind.pseudoElement) :
    runCalls CssSelectorCreator.new
        (partsCalls (s1 ++ (s2 ++ (s3 ++ (s4 ++ (s5 ++ s6)))))) =
      (⟨concatFragments (s1 ++ (s2 ++ (s3 ++ (s4 ++ (s5 ++ s6))))),
        stringOfKinds (nfList e i c a p q)⟩, none) := by
  have hk1 : ∀ p0 ∈ s1, p0.1 = Kind.element := fun p0 hp =>
    (List.eq_replicate_iff.mp h1).2 p0.1 (List.mem_map_of_mem Prod.fst hp)
  have hl1 : s1.length = e := by rw [← List.length_map, h1, List.length_replicate]
  have hk2 : ∀ p0 ∈ s2, p0.1 = Kind.id := fun p0 hp =>
    (List.eq_replicate_iff.mp h2).2 p0.1 (List.mem_map_of_mem Prod.fst hp)
  have hl2 : s2.length = i := by rw [← List.length_map, h2, List.length_replicate]
  have hk3 : ∀ p0 ∈ s3, p0.1 = Kind.«class» := fun p0 hp =>
    (List.eq_replicate_iff.mp h3).2 p0.1 (List.mem_map_of_mem Prod.fst hp)
  have hl3 : s3.length = c := by rw [← List.length_map, h3, List.length_replicate]
  have hk4 : ∀ p0 ∈ s4, p0.1 = Kind.attr := fun p0 hp =>
    (List.eq_replicate_iff.mp h4).2 p0.1 (List.mem_map_of_mem Prod.fst hp)
  have hl4 : s4.length = a := by rw [← List.length_map, h4, List.length_replicate]
  have hk5 : ∀ p0 ∈ s5, p0.1 = Kind.pseudoClass := fun p0 hp =>
    (List.eq_replicate_iff.mp h5).2 p0.1 (List.mem_map_of_mem Prod.fst hp)
  have hl5 : s5.length = p := by rw [← List.length_map, h5, List.length_replicate]
  have hk6 : ∀ p0 ∈ s6, p0.1 = Kind.pseudoElement := fun p0 hp =>
    (List.eq_replicate_iff.mp h6).2 p0.1 (List.mem_map_of_mem Prod.fst hp)
  have hl6 : s6.length = q := by rw [← List.length_map, h6, List.length_replicate]
  have step1 := runSeg Kind.element s1 hk1 [] CssSelectorCreator.new rfl
    (by
      intro m hm
      rw [hl1] at hm
      have hm0 : m = 0 := by omega
      subst hm0
      right
      decide)
    (by
      intro m hm
      rw [hl1] at hm
      have hm0 : m = 0 := by omega
      subst hm0
      exact ⟨1, 0, 0, 0, 0, 0, by omega, by omega, by omega, by simp [nfList]⟩)
  rw [hl1, show CssSelectorCreator.new.selector = "" from rfl,
    String.empty_append, List.nil_append] at step1
  rw [partsCalls_append, runCalls_append_ok _ _ _ _ step1]
  have step2 := runSeg Kind.id s2 hk2 (List.replicate e Kind.element)
    ⟨concatFragments s1, stringOfKinds (List.replicate e Kind.element)⟩ rfl
    (by
      intro m hm
      rw [hl2] at hm
      have hm0 : m = 0 := by omega
      subst hm0
      right
      simp only [List.replicate_zero, List.append_nil]
      exact strInfix_id_false _ (by simp [List.mem_replicate]))
    (by
      intro m hm
      rw [hl2] at hm
      have hm0 : m = 0 := by omega
      subst hm0
      exact ⟨e, 1, 0, 0, 0, 0, he, by omega, by omega, by simp [nfList]⟩)
  rw [hl2] at step2
  rw [partsCalls_append, runCalls_append_ok _ _ _ _ step2]
  have step3 := runSeg Kind.«class» s3 hk3
    (List.replicate e Kind.element ++ List.replicate i Kind.id)
    ⟨concatFragments s1 ++ concatFragments s2,
      stringOfKinds (List.replicate e Kind.element ++
        List.replicate i Kind.id)⟩ rfl
    (by intro m hm; left; decide)
    (by
      intro m hm
      exact ⟨e, i, m + 1, 0, 0, 0, he, hi, by omega,
        by simp [nfList, List.append_assoc]⟩)
  rw [hl3] at step3
  rw [partsCalls_append, runCalls_append_ok _ _ _ _ step3]
  have step4 := runSeg Kind.attr s4 hk4
    (List.replicate e Kind.element ++ List.replicate i Kind.id ++
      List.replicate c Kind.«class»)
    ⟨concatFragments s1 ++ concatFragments s2 ++ concatFragments s3,
      stringOfKinds (List.replicate e Kind.element ++
        List.replicate i Kind.id ++ List.replicate c Kind.«class»)⟩ rfl
    (by intro m hm; left; decide)
    (by
      intro m hm
      exact ⟨e, i, c, m + 1, 0, 0, he, hi, by omega,
        by simp [nfList, List.append_assoc]⟩)
  rw [hl4] at step4
  rw [partsCalls_append, runCalls_append_ok _ _ _ _ step4]
  have step5 := runSeg Kind.pseudoClass s5 hk5
    (List.replicate e Kind.element ++ List.replicate i Kind.id ++
      List.replicate c Kind.«class» ++ List.replicate a Kind.attr)
    ⟨concatFragments s1 ++ concatFragments s2 ++ concatFragments s3 ++
        concatFragments s4,
      stringOfKinds (List.replicate e Kind.element ++
        List.replicate i Kind.id ++ List.replicate c Kind.«class» ++
        List.replicate a Kind.attr)⟩ rfl
    (by intro m hm; left; decide)
    (by
      intro m hm
      exact ⟨e, i, c, a, m + 1, 0, he, hi, by omega,
        by simp [nfList, List.append_assoc]⟩)
  rw [hl5] at step5
  rw [partsCalls_append, runCalls_append_ok _ _ _ _ step5]
  have step6 := runSeg Kind.pseudoElement s6 hk6
    (List.replicate e Kind.element ++ List.replicate i Kind.id ++
      List.replicate c Kind.«class» ++ List.replicate a Kind.attr ++
      List.replicate p Kind.pseudoClass)
    ⟨concatFragments s1 ++ concatFragments s2 ++ concatFragments s3 ++
        concatFragments s4 ++ concatFragments s5,
      stringOfKinds (List.replicate e Kind.element ++
        List.replicate i Kind.id ++ List.replicate c Kind.«class» ++
        List.replicate a Kind.attr ++ List.replicate p Kind.pseudoClass)⟩ rfl
    (by
      intro m hm
      rw [hl6] at hm
      have hm0 : m = 0 := by omega
      subst hm0
      right
      simp only [List.replicate_zero, List.append_nil]
      exact strInfix_pe_false _
        (by simp [List.mem_append, List.mem_replicate]))
    (by
      intro m hm
      rw [hl6] at hm
      have hm0 : m = 0 := by omega
      subst hm0
      exact ⟨e, i, c, a, p, 1, he, hi, by omega,
        by simp [nfList, List.append_assoc]⟩)
  rw [hl6] at step6
  rw [step6]
  simp [concatFragments_append, String.append_assoc, nfList, List.append_assoc]

/-! ### Supporting lemmas for the claim theorems -/

theorem nfList_pairwise (e i c a p q : Nat) :
    List.Pairwise (fun x y => canonRank x ≤ canonRank y)
      (nfList e i c a p q) := by
  have hrep : ∀ (k : Kind) (n : Nat) (l : List Kind),
      List.Pairwise (fun x y => canonRank x ≤ canonRank y) l →
      (∀ y ∈ l, canonRank k ≤ canonRank y) →
      List.Pairwise (fun x y => canonRank x ≤ canonRank y)
        (List.replicate n k ++ l) := by
    intro k n l hl hcross
    refine List.pairwise_append.mpr ⟨?_, hl, ?_⟩
    · exact List.pairwise_replicate.mpr (Or.inr le_rfl)
    · intro x hx y hy
      rw [List.mem_replicate] at hx
      rw [hx.2]
      exact hcross y hy
  have hm5 : ∀ y ∈ List.replicate q Kind.pseudoElement, 5 ≤ canonRank y := by
    intro y hy
    rw [List.mem_replicate] at hy
    rw [hy.2]
    decide
  have h5 : List.Pairwise (fun x y => canonRank x ≤ canonRank y)
      (List.replicate q Kind.pseudoElement) :=
    List.pairwise_replicate.mpr (Or.inr le_rfl)
  have h4 := hrep Kind.pseudoClass p _ h5 (fun y hy => by
    have := hm5 y hy
    have hk : canonRank Kind.pseudoClass = 4 := rfl
    rw [hk]; omega)
  have hm4 : ∀ y ∈ List.replicate p Kind.pseudoClass ++
      List.replicate q Kind.pseudoElement, 4 ≤ canonRank y := by
    intro y hy
    rcases List.mem_append.mp hy with h | h
    · rw [List.mem_replicate] at h; rw [h.2]; decide
    · have := hm5 y h; omega
  have h3 := hrep Kind.attr a _ h4 (fun y hy => by
    have := hm4 y hy
    have hk : canonRank Kind.attr = 3 := rfl
    rw [hk]; omega)
  have hm3 : ∀ y ∈ List.replicate a Kind.attr ++
      (List.replicate p Kind.pseudoClass ++
        List.replicate q Kind.pseudoElement), 3 ≤ canonRank y := by
    intro y hy
    rcases List.mem_append.mp hy with h | h
    · rw [List.mem_replicate] at h; rw [h.2]; decide
    · have := hm4 y h; omega
  have h2 := hrep Kind.«class» c _ h3 (fun y hy => by
    have := hm3 y hy
    have hk : canonRank Kind.«class» = 2 := rfl
    rw [hk]; omega)
  have hm2 : ∀ y ∈ List.replicate c Kind.«class» ++
      (List.replicate a Kind.attr ++
        (List.replicate p Kind.pseudoClass ++
          List.replicate q Kind.pseudoElement)), 2 ≤ canonRank y := by
    intro y hy
    rcases List.mem_append.mp hy with h | h
    · rw [List.mem_replicate] at h; rw [h.2]; decide
    · have := hm3 y h; omega
  have h1 := hrep Kind.id i _ h2 (fun y hy => by
    have := hm2 y hy
    have hk : canonRank Kind.id = 1 := rfl
    rw [hk]; omega)
  have hm1 : ∀ y ∈ List.replicate i Kind.id ++
      (List.replicate c Kind.«class» ++
        (List.replicate a Kind.attr ++
          (List.replicate p Kind.pseudoClass ++
            List.replicate q Kind.pseudoElement))), 1 ≤ canonRank y := by
    intro y hy
    rcases List.mem_append.mp hy with h | h
    · rw [List.mem_replicate] at h; rw [h.2]; decide
    · have := hm2 y h; omega
  have h0 := hrep Kind.element e _ h1 (fun y hy => by
    have := hm1 y hy
    have hk : canonRank Kind.element = 0 := rfl
    rw [hk]; omega)
  rw [nfList, List.append_assoc, List.append_assoc, List.append_assoc,
    List.append_assoc]
  exact h0

theorem not_grammar_of_out_of_order (ks : List Kind) (k : Kind)
    (hlt : ∃ k' ∈ ks, canonRank k < canonRank k') :
    ¬ grammarMatch (ks ++ [k]) := by
  rintro ⟨e, i, c, a, p, q, he, hi, hq, heq⟩
  obtain ⟨k', hk', hrank⟩ := hlt
  have hp : List.Pairwise (fun x y => canonRank x ≤ canonRank y)
      (ks ++ [k]) := heq ▸ nfList_pairwise e i c a p q
  have := (List.pairwise_append.mp hp).2.2 k' hk' k (by simp)
  omega

theorem check_snd_none_co (st : CssSelectorCreator) (sel : String)
    (h : (st.checkSelectorStructure sel).2 = none) :
    ((st.checkSelectorStructure sel).1).creationOrder =
      st.creationOrder ++ sel := by
  rw [CssSelectorCreator.checkSelectorStructure] at h ⊢
  by_cases hdup : (dupKindTest sel && strInfix sel st.creationOrder) = true
  · rw [if_pos hdup] at h
    simp at h
  · rw [if_neg hdup] at h ⊢
    by_cases hord : validOrderPattern (st.creationOrder ++ sel) = true
    · rw [if_pos hord]
    · rw [if_neg hord] at h
      simp at h

/-! ### Claim theorems -/

/-- Claim C1: for every part list whose kind sequence is drawn from the
canonical order (element?, id?, class*, attribute*, pseudo-class*,
pseudo-element?), building via the factory in that order raises no error and
`stringify()` returns the concatenation, in call order, of each part's
rendered fragment (value, #value, .value, [value], :value, ::value). -/
theorem c1_canonical_build_ok (ps : List (Kind × String))
    (h : grammarMatch (ps.map Prod.fst)) :
    (runCalls CssSelectorCreator.new (partsCalls ps)).2 = none ∧
      ((runCalls CssSelectorCreator.new (partsCalls ps)).1).stringify =
        concatFragments ps := by
  obtain ⟨e, i, c, a, p, q, he, hi, hq, hnf⟩ := h
  rw [nfList, List.append_assoc, List.append_assoc, List.append_assoc,
    List.append_assoc] at hnf
  obtain ⟨s1, r1, hps1, h1, hr1⟩ := List.map_eq_append_iff.mp hnf
  obtain ⟨s2, r2, hps2, h2, hr2⟩ := List.map_eq_append_iff.mp hr1
  obtain ⟨s3, r3, hps3, h3, hr3⟩ := List.map_eq_append_iff.mp hr2
  obtain ⟨s4, r4, hps4, h4, hr4⟩ := List.map_eq_append_iff.mp hr3
  obtain ⟨s5, s6, hps5, h5, h6⟩ := List.map_eq_append_iff.mp hr4
  subst hps5
  subst hps4
  subst hps3
  subst hps2
  subst hps1
  rw [runNF e i c a p q he hi hq s1 s2 s3 s4 s5 s6 h1 h2 h3 h4 h5 h6]
  exact ⟨rfl, rfl⟩

theorem c1_canonical_build_ok_witness :
    grammarMatch ([(Kind.id, "main"), (Kind.«class», "container"),
      (Kind.«class», "editable")].map Prod.fst) ∧
    ((runCalls CssSelectorCreator.new (partsCalls
        [(Kind.id, "main"), (Kind.«class», "container"),
          (Kind.«class», "editable")])).1).stringify =
      "#main.container.editable" := by
  have hg : grammarMatch ([(Kind.id, "main"), (Kind.«class», "container"),
      (Kind.«class», "editable")].map Prod.fst) :=
    ⟨0, 1, 2, 0, 0, 0, by omega, by omega, by omega, by decide⟩
  have h := c1_canonical_build_ok
    [(Kind.id, "main"), (Kind.«class», "container"),
      (Kind.«class», "editable")] hg
  exact ⟨hg, by rw [h.2]; decide⟩

/-- Claim C2: for all builders and every combinator in the allowed set,
combine succeeds; the combined text `stringify(a) + " " + c + " " +
stringify(b)` is appended after the receiving builder's existing text; the
facade combine stringifies to exactly that concatenation; and the descendant
combinator (a space) produces three consecutive space characters. -/
theorem c2_combine_roundtrip (st a b : CssSelectorCreator) (cb : String)
    (h : cb ∈ [" ", "+", "~", ">"]) :
    st.combine a cb b =
      ({ st with selector := st.selector ++ a.stringify ++ " " ++ cb ++ " " ++
          b.stringify }, none) ∧
    (cssSelectorBuilder.combine a cb b).2 = none ∧
    ((cssSelectorBuilder.combine a cb b).1).stringify =
      a.stringify ++ " " ++ cb ++ " " ++ b.stringify ∧
    ((cssSelectorBuilder.combine a " " b).1).stringify =
      a.stringify ++ "   " ++ b.stringify := by
  have hc : CssSelectorCreator.combinatorTest cb = true := by
    fin_cases h <;> decide
  have hcs : CssSelectorCreator.combinatorTest " " = true := by decide
  refine ⟨?_, ?_, ?_, ?_⟩
  · rw [CssSelectorCreator.combine, if_pos hc]
  · rw [cssSelectorBuilder.combine, CssSelectorCreator.combine, if_pos hc]
  · rw [cssSelectorBuilder.combine, CssSelectorCreator.combine, if_pos hc]
    show "" ++ a.stringify ++ " " ++ cb ++ " " ++ b.stringify = _
    rw [String.empty_append]
  · rw [cssSelectorBuilder.combine, CssSelectorCreator.combine, if_pos hcs]
    show "" ++ a.stringify ++ " " ++ " " ++ " " ++ b.stringify = _
    apply String.ext
    have h1 : (" " : String).data = [' '] := rfl
    have h3 : ("   " : String).data = [' ', ' ', ' '] := rfl
    simp [String.data_append, h1, h3]

theorem c2_combine_roundtrip_witness :
    ("+" : String) ∈ ([" ", "+", "~", ">"] : List String) ∧
    ((cssSelectorBuilder.combine ⟨"div", "element"⟩ "+"
        ⟨"span", "element"⟩).1).stringify = "div + span" := by
  have h := c2_combine_roundtrip CssSelectorCreator.new ⟨"div", "element"⟩
    ⟨"span", "element"⟩ "+" (by decide)
  exact ⟨by decide, by rw [h.2.2.1]; decide⟩

/-- Claim C3: once a call of kind element, id or pseudo-element has succeeded
on a builder, any later call of the same kind on that builder fails with the
duplicate-selector error, regardless of the calls made in between. -/
theorem c3_duplicate (st : CssSelectorCreator) (k : Kind) (v v' : String)
    (cs : List Call)
    (hk : k = Kind.element ∨ k = Kind.id ∨ k = Kind.pseudoElement)
    (hfirst : (st.applyKind k v).2 = none) :
    ((runCalls (st.applyKind k v).1 cs).1).applyKind k v' =
      ((runCalls (st.applyKind k v).1 cs).1,
        some noDuplicateSelectorsMessage) := by
  have hdt : dupKindTest (kindName k) = true := by
    rcases hk with rfl | rfl | rfl <;> decide
  have hsnd := applyKind_snd_eq_check_snd st k v
  rw [hfirst] at hsnd
  have hco1 : ((st.applyKind k v).1).creationOrder =
      st.creationOrder ++ kindName k := by
    rw [applyKind_fst_creationOrder]
    exact check_snd_none_co st (kindName k) hsnd.symm
  obtain ⟨t, ht⟩ := runCalls_creationOrder cs (st.applyKind k v).1
  have hinf : strInfix (kindName k)
      ((runCalls (st.applyKind k v).1 cs).1).creationOrder = true := by
    rw [strInfix_iff, ht, hco1, String.data_append, String.data_append]
    exact ⟨st.creationOrder.data, t.data, by simp⟩
  exact applyKind_dup _ k v' hdt hinf

theorem c3_duplicate_witness :
    (CssSelectorCreator.new.applyKind Kind.id "main").2 = none ∧
    ((runCalls (CssSelectorCreator.new.applyKind Kind.id "main").1
        []).1).applyKind Kind.id "other" =
      ((runCalls (CssSelectorCreator.new.applyKind Kind.id "main").1 []).1,
        some noDuplicateSelectorsMessage) :=
  ⟨by decide, c3_duplicate CssSelectorCreator.new Kind.id "main" "other" []
    (Or.inr (Or.inl rfl)) (by decide)⟩

/-- Claim C4 counterexample: appending element after pseudo-element is an
out-of-order call, yet it raises the duplicate-selector error (the duplicate
check finds "element" as a substring of the recorded "pseudo-element"), not
the selector-order error. -/
theorem c4_counterexample :
    ((CssSelectorCreator.new.applyKind Kind.pseudoElement "x").1).applyKind
        Kind.element "a" =
      ((CssSelectorCreator.new.applyKind Kind.pseudoElement "x").1,
        some noDuplicateSelectorsMessage) ∧
      noDuplicateSelectorsMessage ≠ selectorsOrderErrorMessage := by
  exact ⟨by decide, by decide⟩

/-- Claim C4 (amended): on a builder whose recorded kinds form a canonical
sequence `ks`, appending a kind strictly earlier in canonical order than
some recorded kind fails — with the duplicate-selector error when the
appended kind is element and `ks` contains element or pseudo-element, id
and `ks` contains id, or pseudo-element and `ks` contains pseudo-element;
with the selector-order error in every other case. -/
theorem c4_out_of_order (ks : List Kind) (k : Kind) (st : CssSelectorCreator)
    (v : String) (hg : grammarMatch ks)
    (hco : st.creationOrder = stringOfKinds ks)
    (hlt : ∃ k' ∈ ks, canonRank k < canonRank k') :
    st.applyKind k v =
      if (k = Kind.element ∧
            (Kind.element ∈ ks ∨ Kind.pseudoElement ∈ ks)) ∨
         (k = Kind.id ∧ Kind.id ∈ ks) ∨
         (k = Kind.pseudoElement ∧ Kind.pseudoElement ∈ ks) then
        (st, some noDuplicateSelectorsMessage)
      else ({ st with creationOrder := st.creationOrder ++ kindName k },
        some selectorsOrderErrorMessage) := by
  have hng : validOrderPattern (st.creationOrder ++ kindName k) = false := by
    rw [hco, stringOfKinds_append_kind, Bool.eq_false_iff]
    intro htrue
    exact not_grammar_of_out_of_order ks k hlt
      ((validOrderPattern_iff (ks ++ [k])).mp htrue)
  cases k with
  | element =>
    by_cases hmem : Kind.element ∈ ks ∨ Kind.pseudoElement ∈ ks
    · rw [if_pos (Or.inl ⟨rfl, hmem⟩)]
      refine applyKind_dup st Kind.element v (by decide) ?_
      rw [hco]
      exact (strInfix_iff _ _).mpr ((infix_element_iff ks).mpr hmem)
    · rw [if_neg (by simp [hmem])]
      refine applyKind_order st Kind.element v (Or.inr ?_) hng
      rw [hco]
      rw [not_or] at hmem
      exact strInfix_element_false ks hmem.1 hmem.2
  | id =>
    by_cases hmem : Kind.id ∈ ks
    · rw [if_pos (Or.inr (Or.inl ⟨rfl, hmem⟩))]
      refine applyKind_dup st Kind.id v (by decide) ?_
      rw [hco]
      exact (strInfix_iff _ _).mpr ((infix_id_iff ks).mpr hmem)
    · rw [if_neg (by simp [hmem])]
      refine applyKind_order st Kind.id v (Or.inr ?_) hng
      rw [hco]
      exact strInfix_id_false ks hmem
  | pseudoElement =>
    by_cases hmem : Kind.pseudoElement ∈ ks
    · rw [if_pos (Or.inr (Or.inr ⟨rfl, hmem⟩))]
      refine applyKind_dup st Kind.pseudoElement v (by decide) ?_
      rw [hco]
      exact (strInfix_iff _ _).mpr ((infix_pe_iff ks).mpr hmem)
    · rw [if_neg (by simp [hmem])]
      refine applyKind_order st Kind.pseudoElement v (Or.inr ?_) hng
      rw [hco]
      exact strInfix_pe_false ks hmem
  | «class» =>
    rw [if_neg (by simp)]
    exact applyKind_order st Kind.«class» v (Or.inl (by decide)) hng
  | attr =>
    rw [if_neg (by simp)]
    exact applyKind_order st Kind.attr v (Or.inl (by decide)) hng
  | pseudoClass =>
    rw [if_neg (by simp)]
    exact applyKind_order st Kind.pseudoClass v (Or.inl (by decide)) hng

theorem c4_out_of_order_witness :
    (⟨".x", "class"⟩ : CssSelectorCreator).applyKind Kind.id "z" =
      (⟨".x", "classid"⟩, some selectorsOrderErrorMessage) := by
  have h := c4_out_of_order [Kind.«class»] Kind.id ⟨".x", "class"⟩ "z"
    ⟨0, 0, 1, 0, 0, 0, by omega, by omega, by omega, by decide⟩
    (by decide) ⟨Kind.«class», by decide, by decide⟩
  rw [h]
  decide

/-- Claim C5 counterexample: the combinator "++" is outside the allowed
four-element set, yet combine succeeds with it (the source regex
`/\s|\+|~|>/` is an unanchored containment test). -/
theorem c5_counterexample :
    (CssSelectorCreator.new.combine ⟨"div", "element"⟩ "++"
        ⟨"span", "element"⟩).2 = none ∧
      ("++" : String) ∉ ([" ", "+", "~", ">"] : List String) := by
  exact ⟨by decide, by decide⟩

/-- Claim C5 (amended): combine fails with the combinator error exactly when
the combinator string contains no JS whitespace character and none of '+',
'~', '>'; in particular '*' fails while '++' or a tab character succeed. -/
theorem c5_combinator_condition (st a b : CssSelectorCreator) (cb : String) :
    (st.combine a cb b).2 =
        some (combinatorErrorMessage allowedCombinatorsText) ↔
      ∀ ch ∈ cb.data, CssSelectorCreator.jsSpace ch = false ∧
        ch ≠ '+' ∧ ch ≠ '~' ∧ ch ≠ '>' := by
  by_cases hc : CssSelectorCreator.combinatorTest cb = true
  · rw [CssSelectorCreator.combine, if_pos hc]
    rw [CssSelectorCreator.combinatorTest, List.any_eq_true] at hc
    obtain ⟨ch, hch, hprop⟩ := hc
    refine iff_of_false (by simp) ?_
    intro hall
    obtain ⟨hs, hp, ht, hg⟩ := hall ch hch
    simp [hs, hp, ht, hg] at hprop
  · rw [CssSelectorCreator.combine, if_neg hc]
    simp only [true_iff]
    rw [Bool.not_eq_true, CssSelectorCreator.combinatorTest,
      List.any_eq_false] at hc
    intro ch hch
    have hfalse : (CssSelectorCreator.jsSpace ch || decide (ch = '+') ||
        decide (ch = '~') || decide (ch = '>')) = false :=
      Bool.eq_false_iff.mpr (hc ch hch)
    simp only [Bool.or_eq_false_iff, decide_eq_false_iff_not] at hfalse
    exact ⟨hfalse.1.1.1, hfalse.1.1.2, hfalse.1.2, hfalse.2⟩

theorem applyKind_of_check_err (st : CssSelectorCreator) (k : Kind)
    (v : String) (e : String)
    (h : (st.checkSelectorStructure (kindName k)).2 = some e) :
    st.applyKind k v = st.checkSelectorStructure (kindName k) := by
  cases k <;>
    · simp only [kindName] at h ⊢
      rw [CssSelectorCreator.applyKind]
      first
      | rw [CssSelectorCreator.element]
      | rw [CssSelectorCreator.id]
      | rw [CssSelectorCreator.«class»]
      | rw [CssSelectorCreator.attr]
      | rw [CssSelectorCreator.pseudoClass]
      | rw [CssSelectorCreator.pseudoElement]
      rcases hc : st.checkSelectorStructure _ with ⟨st2, o⟩
      rw [hc] at h
      cases o with
      | none => simp at h
      | some e' => rfl

theorem check_snd_dup_state (st : CssSelectorCreator) (sel : String)
    (h : (st.checkSelectorStructure sel).2 = some noDuplicateSelectorsMessage) :
    st.checkSelectorStructure sel = (st, some noDuplicateSelectorsMessage) := by
  rw [CssSelectorCreator.checkSelectorStructure] at h ⊢
  by_cases hdup : (dupKindTest sel && strInfix sel st.creationOrder) = true
  · rw [if_pos hdup]
  · rw [if_neg hdup] at h ⊢
    by_cases hord : validOrderPattern (st.creationOrder ++ sel) = true
    · rw [if_pos hord] at h
      simp at h
    · rw [if_neg hord] at h
      simp only [Prod.snd] at h
      exact absurd (Option.some.injEq _ _ ▸ h) (by
        intro heq
        have : selectorsOrderErrorMessage = noDuplicateSelectorsMessage := by
          injection h
        exact absurd this (by decide))

theorem check_snd_order_state (st : CssSelectorCreator) (sel : String)
    (h : (st.checkSelectorStructure sel).2 = some selectorsOrderErrorMessage) :
    st.checkSelectorStructure sel =
      ({ st with creationOrder := st.creationOrder ++ sel },
        some selectorsOrderErrorMessage) := by
  rw [CssSelectorCreator.checkSelectorStructure] at h ⊢
  by_cases hdup : (dupKindTest sel && strInfix sel st.creationOrder) = true
  · rw [if_pos hdup] at h
    simp only [Prod.snd] at h
    have : noDuplicateSelectorsMessage = selectorsOrderErrorMessage := by
      injection h
    exact absurd this (by decide)
  · rw [if_neg hdup] at h ⊢
    by_cases hord : validOrderPattern (st.creationOrder ++ sel) = true
    · rw [if_pos hord] at h
      simp at h
    · rw [if_neg hord]

/-- Claim C6 counterexample: after `class` succeeds, a failing `element`
call (selector-order error) leaves the offending kind recorded, so a
subsequent `class` append — which succeeded before the failing call — now
fails as well: the failing call's mutation is observable. -/
theorem c6_counterexample :
    ((CssSelectorCreator.new.applyKind Kind.«class» "x").1.applyKind
        Kind.element "a").2 = some selectorsOrderErrorMessage ∧
    ((((CssSelectorCreator.new.applyKind Kind.«class» "x").1.applyKind
        Kind.element "a").1).applyKind Kind.«class» "y").2 =
      some selectorsOrderErrorMessage ∧
    (((CssSelectorCreator.new.applyKind Kind.«class» "x").1).applyKind
        Kind.«class» "y").2 = none := by
  exact ⟨by decide, by decide, by decide⟩

/-- Claim C6 (amended): a failing combine call and a failing duplicate check
leave the builder unchanged, but a failing order check appends the offending
kind tag to `creationOrder` (the selector text is unchanged), so later calls
are validated against the polluted record. -/
theorem c6_failure_effects (st a b : CssSelectorCreator) (k : Kind)
    (v cb : String) :
    ((st.combine a cb b).2.isSome → (st.combine a cb b).1 = st) ∧
    ((st.applyKind k v).2 = some noDuplicateSelectorsMessage →
      (st.applyKind k v).1 = st) ∧
    ((st.applyKind k v).2 = some selectorsOrderErrorMessage →
      (st.applyKind k v).1 =
        { st with creationOrder := st.creationOrder ++ kindName k }) := by
  refine ⟨?_, ?_, ?_⟩
  · intro hsome
    rw [CssSelectorCreator.combine] at hsome ⊢
    by_cases hc : CssSelectorCreator.combinatorTest cb = true
    · rw [if_pos hc] at hsome
      simp at hsome
    · rw [if_neg hc]
  · intro hdup
    have hcheck := applyKind_snd_eq_check_snd st k v
    rw [hdup] at hcheck
    rw [applyKind_of_check_err st k v _ hcheck.symm,
      check_snd_dup_state st _ hcheck.symm]
  · intro hord
    have hcheck := applyKind_snd_eq_check_snd st k v
    rw [hord] at hcheck
    rw [applyKind_of_check_err st k v _ hcheck.symm,
      check_snd_order_state st _ hcheck.symm]

theorem c6_failure_effects_witness :
    ((⟨".x", "class"⟩ : CssSelectorCreator).combine CssSelectorCreator.new
        "*" CssSelectorCreator.new).1 = ⟨".x", "class"⟩ ∧
    ((⟨"#a", "id"⟩ : CssSelectorCreator).applyKind Kind.id "b").1 =
      ⟨"#a", "id"⟩ ∧
    ((⟨".x", "class"⟩ : CssSelectorCreator).applyKind Kind.element "a").1 =
      { (⟨".x", "class"⟩ : CssSelectorCreator) with
        creationOrder :=
          (⟨".x", "class"⟩ : CssSelectorCreator).creationOrder ++
            kindName Kind.element } := by
  have h1 := c6_failure_effects ⟨".x", "class"⟩ CssSelectorCreator.new
    CssSelectorCreator.new Kind.element "a" "*"
  have h2 := c6_failure_effects ⟨"#a", "id"⟩ CssSelectorCreator.new
    CssSelectorCreator.new Kind.id "b" "*"
  exact ⟨h1.1 (by decide), h2.2.1 (by decide), h1.2.2 (by decide)⟩

theorem runPair_eq (sched : List (Bool × Call)) :
    ∀ pq, runPair pq sched =
      ((sideCalls true sched).foldl stepCall pq.1,
        (sideCalls false sched).foldl stepCall pq.2) := by
  induction sched with
  | nil => intro pq; rfl
  | cons sc rest ih =>
    intro pq
    obtain ⟨side, c⟩ := sc
    cases side <;> simp [runPair, ih, sideCalls]

/-- Claim C7: each facade method constructs a fresh (empty) builder and
forwards the first call's arguments to it; the facade holds no mutable
state, so an interleaved execution of two call chains on two independently
obtained builders equals the two chains executed in isolation. -/
theorem c7_facade_fresh (v : String) (a b : CssSelectorCreator) (cb : String)
    (sched : List (Bool × Call)) (s1 s2 : CssSelectorCreator) :
    cssSelectorBuilder.element v = CssSelectorCreator.new.element v ∧
    cssSelectorBuilder.id v = CssSelectorCreator.new.id v ∧
    cssSelectorBuilder.«class» v = CssSelectorCreator.new.«class» v ∧
    cssSelectorBuilder.attr v = CssSelectorCreator.new.attr v ∧
    cssSelectorBuilder.pseudoClass v = CssSelectorCreator.new.pseudoClass v ∧
    cssSelectorBuilder.pseudoElement v =
      CssSelectorCreator.new.pseudoElement v ∧
    cssSelectorBuilder.combine a cb b =
      CssSelectorCreator.new.combine a cb b ∧
    runPair ((s1, none), (s2, none)) sched =
      (runCalls s1 (sideCalls true sched),
        runCalls s2 (sideCalls false sched)) := by
  refine ⟨rfl, rfl, rfl, rfl, rfl, rfl, rfl, ?_⟩
  rw [runCalls, runCalls]
  exact runPair_eq sched ((s1, none), (s2, none))

/-- Claim C9 counterexample: the duplicate error's message spells "more then
one time" (sic), not "more than one time" as the claim states. -/
theorem c9_counterexample :
    ((CssSelectorCreator.new.applyKind Kind.id "main").1.applyKind Kind.id
        "other").2 = some noDuplicateSelectorsMessage ∧
      noDuplicateSelectorsMessage ≠
        "Element, id and pseudo-element should not occur more than one time inside the selector" := by
  exact ⟨by decide, by decide⟩

/-- Claim C9 (amended): whenever the duplicate check fires, the raised error
carries exactly the message "Element, id and pseudo-element should not occur
more then one time inside the selector" (with the source's spelling
"then"). -/
theorem c9_duplicate_message (st : CssSelectorCreator) (k : Kind) (v : String)
    (h1 : dupKindTest (kindName k) = true)
    (h2 : strInfix (kindName k) st.creationOrder = true) :
    st.applyKind k v =
      (st, some "Element, id and pseudo-element should not occur more then one time inside the selector") :=
  applyKind_dup st k v h1 h2

theorem c9_duplicate_message_witness :
    dupKindTest (kindName Kind.id) = true ∧
    strInfix (kindName Kind.id)
      (⟨"#a", "id"⟩ : CssSelectorCreator).creationOrder = true ∧
    (⟨"#a", "id"⟩ : CssSelectorCreator).applyKind Kind.id "b" =
      (⟨"#a", "id"⟩,
        some "Element, id and pseudo-element should not occur more then one time inside the selector") :=
  ⟨by decide, by decide,
    c9_duplicate_message ⟨"#a", "id"⟩ Kind.id "b" (by decide) (by decide)⟩

theorem check_snd_none_eq (st : CssSelectorCreator) (sel : String)
    (h : (st.checkSelectorStructure sel).2 = none) :
    st.checkSelectorStructure sel =
      ({ st with creationOrder := st.creationOrder ++ sel }, none) := by
  rw [CssSelectorCreator.checkSelectorStructure] at h ⊢
  by_cases hdup : (dupKindTest sel && strInfix sel st.creationOrder) = true
  · rw [if_pos hdup] at h
    simp at h
  · rw [if_neg hdup] at h ⊢
    by_cases hord : validOrderPattern (st.creationOrder ++ sel) = true
    · rw [if_pos hord]
    · rw [if_neg hord] at h
      simp at h

theorem applyKind_none_eq (st : CssSelectorCreator) (k : Kind) (v : String)
    (h : (st.applyKind k v).2 = none) :
    st.applyKind k v =
      ({ selector := st.selector ++ fragment k v,
         creationOrder := st.creationOrder ++ kindName k }, none) := by
  have hsnd := applyKind_snd_eq_check_snd st k v
  rw [h] at hsnd
  have hcheck := check_snd_none_eq st (kindName k) hsnd.symm
  cases k <;>
    · simp only [kindName] at hcheck ⊢
      rw [CssSelectorCreator.applyKind]
      first
      | rw [CssSelectorCreator.element]
      | rw [CssSelectorCreator.id]
      | rw [CssSelectorCreator.«class»]
      | rw [CssSelectorCreator.attr]
      | rw [CssSelectorCreator.pseudoClass]
      | rw [CssSelectorCreator.pseudoElement]
      rw [hcheck]
      simp [fragment, String.append_assoc]

/-- Claim C10 (implicit): combine records no kind and performs no duplicate
or order validation — `creationOrder` is untouched, the duplicate and order
errors are never raised by combine, a part append after a combine is
validated exactly as before the combine, and on success its fragment is
appended after the combined text. -/
theorem c10_combine_unvalidated (st a b : CssSelectorCreator) (cb : String)
    (k : Kind) (v : String) :
    ((st.combine a cb b).1).creationOrder = st.creationOrder ∧
    (st.combine a cb b).2 ≠ some noDuplicateSelectorsMessage ∧
    (st.combine a cb b).2 ≠ some selectorsOrderErrorMessage ∧
    (((st.combine a cb b).1).applyKind k v).2 = (st.applyKind k v).2 ∧
    ((st.combine a cb b).2 = none →
      ((st.combine a cb b).1).selector =
        st.selector ++ a.stringify ++ " " ++ cb ++ " " ++ b.stringify) ∧
    ((((st.combine a cb b).1).applyKind k v).2 = none →
      (((st.combine a cb b).1).applyKind k v).1 =
        { selector := ((st.combine a cb b).1).selector ++ fragment k v,
          creationOrder := ((st.combine a cb b).1).creationOrder ++
            kindName k }) := by
  by_cases hc : CssSelectorCreator.combinatorTest cb = true
  · rw [CssSelectorCreator.combine, if_pos hc]
    refine ⟨rfl, by simp, by simp, ?_, fun _ => rfl, ?_⟩
    · rw [applyKind_snd_eq_check_snd, applyKind_snd_eq_check_snd]
      exact check_snd_creationOrder _ _ _ rfl
    · intro h
      rw [applyKind_none_eq _ k v h]
  · rw [CssSelectorCreator.combine, if_neg hc]
    refine ⟨rfl, by simp; decide, by simp; decide, rfl,
      fun h => absurd h (by simp), ?_⟩
    intro h
    rw [applyKind_none_eq _ k v h]

theorem c10_combine_unvalidated_witness :
    ((CssSelectorCreator.new.combine ⟨"div", "element"⟩ "+"
        ⟨"span", "element"⟩).1).selector =
      CssSelectorCreator.new.selector ++
        (⟨"div", "element"⟩ : CssSelectorCreator).stringify ++ " " ++ "+" ++
        " " ++ (⟨"span", "element"⟩ : CssSelectorCreator).stringify ∧
    (((CssSelectorCreator.new.combine ⟨"div", "element"⟩ "+"
        ⟨"span", "element"⟩).1).applyKind Kind.«class» "x").1 =
      { selector := ((CssSelectorCreator.new.combine ⟨"div", "element"⟩ "+"
            ⟨"span", "element"⟩).1).selector ++ fragment Kind.«class» "x",
        creationOrder := ((CssSelectorCreator.new.combine ⟨"div", "element"⟩
            "+" ⟨"span", "element"⟩).1).creationOrder ++
          kindName Kind.«class» } := by
  have h := c10_combine_unvalidated CssSelectorCreator.new ⟨"div", "element"⟩
    ⟨"span", "element"⟩ "+" Kind.«class» "x"
  exact ⟨h.2.2.2.2.1 (by decide), h.2.2.2.2.2 (by decide)⟩

/-! ### Round-trip of the number representation -/

theorem natCharsAux_irrel : ∀ (n f1 f2 : Nat), n < f1 → n < f2 →
    natCharsAux f1 n = natCharsAux f2 n := by
  intro n
  induction n using Nat.strong_induction_on with
  | _ n ih =>
    intro f1 f2 h1 h2
    cases f1 with
    | zero => omega
    | succ f1 =>
      cases f2 with
      | zero => omega
      | succ f2 =>
        rw [natCharsAux, natCharsAux]
        by_cases h10 : n < 10
        · rw [if_pos h10, if_pos h10]
        · rw [if_neg h10, if_neg h10]
          have hdiv : n / 10 < n := Nat.div_lt_self (by omega) (by omega)
          rw [ih (n / 10) hdiv f1 f2 (by omega) (by omega)]

theorem natChars_eq (n : Nat) :
    natChars n = if n < 10 then [hexDigitChar n]
      else natChars (n / 10) ++ [hexDigitChar (n % 10)] := by
  rw [natChars, natCharsAux]
  by_cases h10 : n < 10
  · rw [if_pos h10, if_pos h10]
  · rw [if_neg h10, if_neg h10, natChars]
    have hdiv : n / 10 < n := Nat.div_lt_self (by omega) (by omega)
    rw [natCharsAux_irrel (n / 10) n (n / 10 + 1) (by omega) (by omega)]

theorem digit_facts : ∀ m, m < 10 →
    isDigitCh (hexDigitChar m) = true ∧ digitVal (hexDigitChar m) = m := by
  decide

theorem natChars_digits : ∀ n c, c ∈ natChars n → isDigitCh c = true := by
  intro n
  induction n using Nat.strong_induction_on with
  | _ n ih =>
    intro c hc
    rw [natChars_eq] at hc
    by_cases h10 : n < 10
    · rw [if_pos h10] at hc
      simp only [List.mem_singleton] at hc
      exact hc ▸ (digit_facts n h10).1
    · rw [if_neg h10] at hc
      rcases List.mem_append.mp hc with h | h
      · exact ih (n / 10) (Nat.div_lt_self (by omega) (by omega)) c h
      · simp only [List.mem_singleton] at h
        exact h ▸ (digit_facts (n % 10) (Nat.mod_lt n (by omega))).1

theorem natChars_head : ∀ n, ∃ d r, natChars n = d :: r ∧ isDigitCh d = true := by
  intro n
  induction n using Nat.strong_induction_on with
  | _ n ih =>
    rw [natChars_eq]
    by_cases h10 : n < 10
    · rw [if_pos h10]
      exact ⟨hexDigitChar n, [], rfl, (digit_facts n h10).1⟩
    · rw [if_neg h10]
      obtain ⟨d, r, hd, hdig⟩ := ih (n / 10) (Nat.div_lt_self (by omega) (by omega))
      exact ⟨d, r ++ [hexDigitChar (n % 10)], by rw [hd]; rfl, hdig⟩

theorem natChars_foldl : ∀ n acc,
    List.foldl (fun a c => a * 10 + digitVal c) acc (natChars n) =
      acc * 10 ^ (natChars n).length + n := by
  intro n
  induction n using Nat.strong_induction_on with
  | _ n ih =>
    intro acc
    conv_lhs => rw [natChars_eq]
    conv_rhs => rw [natChars_eq]
    by_cases h10 : n < 10
    · rw [if_pos h10]
      simp [List.foldl, (digit_facts n h10).2]
    · rw [if_neg h10]
      rw [List.foldl_append, ih (n / 10) (Nat.div_lt_self (by omega) (by omega))]
      simp only [List.foldl, List.length_append, List.length_singleton]
      rw [(digit_facts (n % 10) (Nat.mod_lt n (by omega))).2]
      rw [pow_succ]
      have := Nat.div_add_mod n 10
      ring_nf
      omega

theorem parseDigits_run : ∀ (ds rest : List Char) (acc : Nat),
    (∀ c ∈ ds, isDigitCh c = true) →
    parseDigits (ds ++ rest) acc =
      parseDigits rest (List.foldl (fun a c => a * 10 + digitVal c) acc ds) := by
  intro ds
  induction ds with
  | nil => intro rest acc _; rfl
  | cons c ds ih =>
    intro rest acc hall
    rw [List.cons_append, parseDigits, if_pos (hall c (List.mem_cons_self _ _))]
    exact ih rest _ (fun c' hc' => hall c' (List.mem_cons_of_mem _ hc'))

theorem parseDigits_stop (rest : List Char) (acc : Nat)
    (h : headIsDigit rest = false) : parseDigits rest acc = (acc, rest) := by
  cases rest with
  | nil => rfl
  | cons c r =>
    rw [headIsDigit] at h
    rw [parseDigits, if_neg (by simp [h])]

theorem parseDigits_natChars (n : Nat) (rest : List Char)
    (h : headIsDigit rest = false) :
    parseDigits (natChars n ++ rest) 0 = (n, rest) := by
  rw [parseDigits_run (natChars n) rest 0 (natChars_digits n),
    natChars_foldl n 0, parseDigits_stop rest _ h]
  simp

theorem digit_ne_dash {d : Char} (h : isDigitCh d = true) : d ≠ '-' := by
  intro heq
  rw [heq] at h
  exact absurd h (by decide)

theorem parseIntChars_print (n : Int) (rest : List Char)
    (h : headIsDigit rest = false) :
    parseIntChars (intChars n ++ rest) = some (n, rest) := by
  cases n with
  | ofNat m =>
    rw [show intChars (Int.ofNat m) = natChars m from rfl]
    obtain ⟨d, r, hd, hdig⟩ := natChars_head m
    rw [parseIntChars.eq_def, if_neg (by
      rw [hd, List.cons_append, List.head?_cons]
      simp only [Option.some.injEq]
      exact digit_ne_dash hdig)]
    rw [if_pos (by rw [hd, List.cons_append, headIsDigit]; exact hdig)]
    rw [parseDigits_natChars m rest h]
    rfl
  | negSucc m =>
    have hh : headIsDigit (natChars (m + 1) ++ rest) = true := by
      obtain ⟨d, r, hd, hdig⟩ := natChars_head (m + 1)
      rw [hd, List.cons_append, headIsDigit]
      exact hdig
    rw [show intChars (Int.negSucc m) = '-' :: natChars (m + 1) from rfl,
      List.cons_append]
    have hred : parseIntChars ('-' :: (natChars (m + 1) ++ rest)) =
        if headIsDigit (natChars (m + 1) ++ rest) then
          some (-((parseDigits (natChars (m + 1) ++ rest) 0).1 : Int),
            (parseDigits (natChars (m + 1) ++ rest) 0).2)
        else none := rfl
    rw [hred, if_pos hh, parseDigits_natChars (m + 1) rest h]
    simp [Int.negSucc_eq]

/-! ### Round-trip of string escaping -/

theorem hexVal_hexDigitChar : ∀ m, m < 16 → hexVal (hexDigitChar m) = some m := by
  decide

theorem psb_quote_end (F : Nat) (rest : List Char) :
    parseStringBody (F + 1) ('\"' :: rest) = some ([], rest) := rfl

set_option maxHeartbeats 1600000 in
theorem psb_esc (F : Nat) (X : List Char) :
    parseStringBody (F + 1) ('\\' :: X) =
      (escDecode X).bind fun p =>
        (parseStringBody F p.2).map fun q => (p.1 :: q.1, q.2) := rfl

set_option maxHeartbeats 1600000 in
theorem psb_plain (F : Nat) (c : Char) (X : List Char) (h1 : c ≠ '\"')
    (h2 : c ≠ '\\') :
    parseStringBody (F + 1) (c :: X) =
      (parseStringBody F X).map fun q => (c :: q.1, q.2) := by
  show (if c = '\"' then some ([], X)
    else if c = '\\' then
      (escDecode X).bind fun p =>
        (parseStringBody F p.2).map fun q => (p.1 :: q.1, q.2)
    else (parseStringBody F X).map fun q => (c :: q.1, q.2)) = _
  rw [if_neg h1, if_neg h2]

theorem escDecode_u (h3 h4 : Char) (X : List Char) (m3 m4 : Nat)
    (hh3 : hexVal h3 = some m3) (hh4 : hexVal h4 = some m4) :
    escDecode ('u' :: '0' :: '0' :: h3 :: h4 :: X) =
      some (Char.ofNat (0 * 4096 + 0 * 256 + m3 * 16 + m4), X) := by
  have hred : escDecode ('u' :: '0' :: '0' :: h3 :: h4 :: X) =
      match hexVal '0', hexVal '0', hexVal h3, hexVal h4 with
      | some a, some b, some c2, some d =>
        some (Char.ofNat (a * 4096 + b * 256 + c2 * 16 + d), X)
      | _, _, _, _ => none := rfl
  rw [hred, show hexVal '0' = some 0 from rfl, hh3, hh4]

theorem parseStringBody_print : ∀ (cs : List Char) (fuel : Nat)
    (rest : List Char), cs.length < fuel →
    parseStringBody fuel (escString cs ++ '\"' :: rest) = some (cs, rest) := by
  intro cs
  induction cs with
  | nil =>
    intro fuel rest hfuel
    obtain ⟨F, rfl⟩ : ∃ F, fuel = F + 1 := ⟨fuel - 1, by omega⟩
    exact psb_quote_end F rest
  | cons c cs ih =>
    intro fuel rest hfuel
    obtain ⟨F, rfl⟩ : ∃ F, fuel = F + 1 := ⟨fuel - 1, by omega⟩
    have hF : cs.length < F := by
      rw [List.length_cons] at hfuel
      omega
    rw [show escString (c :: cs) = escChar c ++ escString cs from rfl,
      List.append_assoc]
    rw [escChar]
    by_cases h1 : c = '\"'
    · rw [if_pos h1, h1]
      simp only [List.cons_append, List.nil_append]
      rw [psb_esc F _,
        show escDecode ('\"' :: (escString cs ++ '\"' :: rest)) =
          some ('\"', escString cs ++ '\"' :: rest) from rfl]
      simp only [Option.some_bind]
      rw [ih F rest hF]
      rfl
    · rw [if_neg h1]
      by_cases h2 : c = '\\'
      · rw [if_pos h2, h2]
        simp only [List.cons_append, List.nil_append]
        rw [psb_esc F _,
          show escDecode ('\\' :: (escString cs ++ '\"' :: rest)) =
            some ('\\', escString cs ++ '\"' :: rest) from rfl]
        simp only [Option.some_bind]
        rw [ih F rest hF]
        rfl
      · rw [if_neg h2]
        by_cases h3 : c = '\u0008'
        · rw [if_pos h3, h3]
          simp only [List.cons_append, List.nil_append]
          rw [psb_esc F _,
            show escDecode ('b' :: (escString cs ++ '\"' :: rest)) =
              some ('\u0008', escString cs ++ '\"' :: rest) from rfl]
          simp only [Option.some_bind]
          rw [ih F rest hF]
          rfl
        · rw [if_neg h3]
          by_cases h4 : c = '\t'
          · rw [if_pos h4, h4]
            simp only [List.cons_append, List.nil_append]
            rw [psb_esc F _,
              show escDecode ('t' :: (escString cs ++ '\"' :: rest)) =
                some ('\t', escString cs ++ '\"' :: rest) from rfl]
            simp only [Option.some_bind]
            rw [ih F rest hF]
            rfl
          · rw [if_neg h4]
            by_cases h5 : c = '\n'
            · rw [if_pos h5, h5]
              simp only [List.cons_append, List.nil_append]
              rw [psb_esc F _,
                show escDecode ('n' :: (escString cs ++ '\"' :: rest)) =
                  some ('\n', escString cs ++ '\"' :: rest) from rfl]
              simp only [Option.some_bind]
              rw [ih F rest hF]
              rfl
            · rw [if_neg h5]
              by_cases h6 : c = '\u000C'
              · rw [if_pos h6, h6]
                simp only [List.cons_append, List.nil_append]
                rw [psb_esc F _,
                  show escDecode ('f' :: (escString cs ++ '\"' :: rest)) =
                    some ('\u000C', escString cs ++ '\"' :: rest) from rfl]
                simp only [Option.some_bind]
                rw [ih F rest hF]
                rfl
              · rw [if_neg h6]
                by_cases h7 : c = '\r'
                · rw [if_pos h7, h7]
                  simp only [List.cons_append, List.nil_append]
                  rw [psb_esc F _,
                    show escDecode ('r' :: (escString cs ++ '\"' :: rest)) =
                      some ('\r', escString cs ++ '\"' :: rest) from rfl]
                  simp only [Option.some_bind]
                  rw [ih F rest hF]
                  rfl
                · rw [if_neg h7]
                  by_cases h8 : c.toNat < 32
                  · rw [if_pos h8]
                    simp only [List.cons_append, List.nil_append]
                    rw [psb_esc F _,
                      escDecode_u _ _ _ (c.toNat / 16) (c.toNat % 16)
                        (hexVal_hexDigitChar _ (by omega))
                        (hexVal_hexDigitChar _ (Nat.mod_lt _ (by omega)))]
                    simp only [Option.some_bind]
                    rw [ih F rest hF]
                    have harith : 0 * 4096 + 0 * 256 + c.toNat / 16 * 16 +
                        c.toNat % 16 = c.toNat := by
                      have := Nat.div_add_mod c.toNat 16
                      omega
                    rw [harith, Char.ofNat_toNat]
                    rfl
                  · rw [if_neg h8]
                    rw [List.cons_append, List.nil_append]
                    rw [psb_plain F c _ h1 h2, ih F rest hF]
                    rfl

/-! ### Round-trip of whole values -/

theorem escChar_length_pos (c : Char) : 1 ≤ (escChar c).length := by
  rw [escChar]
  repeat' split
  all_goals simp

theorem escString_length : ∀ cs : List Char,
    cs.length ≤ (escString cs).length := by
  intro cs
  induction cs with
  | nil => simp [escString]
  | cons c cs ih =>
    rw [show escString (c :: cs) = escChar c ++ escString cs from rfl,
      List.length_append, List.length_cons]
    have := escChar_length_pos c
    omega

theorem printJson_eq_null : printJson Json.null = ['n', 'u', 'l', 'l'] := by
  simp [printJson]

theorem printJson_eq_true :
    printJson (Json.bool true) = ['t', 'r', 'u', 'e'] := by
  simp [printJson]

theorem printJson_eq_false :
    printJson (Json.bool false) = ['f', 'a', 'l', 's', 'e'] := by
  simp [printJson]

theorem printJson_eq_num (n : Int) : printJson (Json.num n) = intChars n := by
  simp [printJson]

theorem printJson_eq_str (s : String) :
    printJson (Json.str s) = '\"' :: escString s.data ++ ['\"'] := by
  simp [printJson]

theorem printJson_eq_arr (xs : List Json) :
    printJson (Json.arr xs) = '[' :: printElems xs ++ [']'] := by
  simp [printJson]

theorem printJson_eq_obj (fs : List (String × Json)) :
    printJson (Json.obj fs) = '\u007B' :: printFields fs ++ ['\u007D'] := by
  simp [printJson]

theorem printElems_nil : printElems [] = [] := by simp [printElems]

theorem printElems_single (x : Json) : printElems [x] = printJson x := by
  simp [printElems]

theorem printElems_cons2 (x y : Json) (rest : List Json) :
    printElems (x :: y :: rest) = printJson x ++ ',' :: printElems (y :: rest) := by
  simp [printElems]

theorem printFields_single (k : String) (v : Json) :
    printFields [(k, v)] =
      '\"' :: escString k.data ++ '\"' :: ':' :: printJson v := by
  simp [printFields]

theorem printFields_cons2 (k : String) (v : Json) (g : String × Json)
    (rest : List (String × Json)) :
    printFields ((k, v) :: g :: rest) =
      ('\"' :: escString k.data ++ '\"' :: ':' :: printJson v) ++
        ',' :: printFields (g :: rest) := by
  simp [printFields]

theorem printJson_head : ∀ v : Json, ∃ d r, printJson v = d :: r ∧
    (d = 'n' ∨ d = 't' ∨ d = 'f' ∨ d = '\"' ∨ d = '[' ∨ d = '\u007B' ∨
      d = '-' ∨ isDigitCh d = true) := by
  intro v
  cases v with
  | null => exact ⟨'n', _, printJson_eq_null, Or.inl rfl⟩
  | bool b =>
    cases b with
    | true => exact ⟨'t', _, printJson_eq_true, Or.inr (Or.inl rfl)⟩
    | false => exact ⟨'f', _, printJson_eq_false, Or.inr (Or.inr (Or.inl rfl))⟩
  | num n =>
    cases n with
    | ofNat m =>
      obtain ⟨d, r, hd, hdig⟩ := natChars_head m
      refine ⟨d, r, ?_, by tauto⟩
      rw [printJson_eq_num, show intChars (Int.ofNat m) = natChars m from rfl,
        hd]
    | negSucc m =>
      refine ⟨'-', natChars (m + 1), ?_, by tauto⟩
      rw [printJson_eq_num]
      rfl
  | str s => exact ⟨'\"', _, printJson_eq_str s, by tauto⟩
  | arr xs => exact ⟨'[', _, printJson_eq_arr xs, by tauto⟩
  | obj fs => exact ⟨'\u007B', _, printJson_eq_obj fs, by tauto⟩

theorem printJson_length_pos (v : Json) : 0 < (printJson v).length := by
  obtain ⟨d, r, h, _⟩ := printJson_head v
  rw [h]
  simp

theorem printJson_head_ne_close (v : Json) (d : Char) (r : List Char)
    (h : printJson v = d :: r) : d ≠ ']' ∧ d ≠ '\u007D' := by
  obtain ⟨d', r', h', opts⟩ := printJson_head v
  rw [h] at h'
  injection h' with h1 h2
  subst h1
  rcases opts with rfl | rfl | rfl | rfl | rfl | rfl | rfl | hdig
  · exact ⟨by decide, by decide⟩
  · exact ⟨by decide, by decide⟩
  · exact ⟨by decide, by decide⟩
  · exact ⟨by decide, by decide⟩
  · exact ⟨by decide, by decide⟩
  · exact ⟨by decide, by decide⟩
  · exact ⟨by decide, by decide⟩
  · constructor <;> (intro heq; rw [heq] at hdig; exact absurd hdig (by decide))

theorem digit_ne_keyword {d : Char} (h : isDigitCh d = true) :
    d ≠ 'n' ∧ d ≠ 't' ∧ d ≠ 'f' ∧ d ≠ '\"' ∧ d ≠ '[' ∧ d ≠ '\u007B' := by
  refine ⟨?_, ?_, ?_, ?_, ?_, ?_⟩ <;>
    (intro heq; rw [heq] at h; exact absurd h (by decide))

theorem pv_null (F : Nat) (r : List Char) :
    parseValue (F + 1) ('n' :: 'u' :: 'l' :: 'l' :: r) =
      some (Json.null, r) := rfl

theorem pv_true (F : Nat) (r : List Char) :
    parseValue (F + 1) ('t' :: 'r' :: 'u' :: 'e' :: r) =
      some (Json.bool true, r) := rfl

theorem pv_false (F : Nat) (r : List Char) :
    parseValue (F + 1) ('f' :: 'a' :: 'l' :: 's' :: 'e' :: r) =
      some (Json.bool false, r) := rfl

theorem pv_quote (F : Nat) (r : List Char) :
    parseValue (F + 1) ('\"' :: r) =
      (parseStringBody (r.length + 1) r).map fun p =>
        (Json.str ⟨p.1⟩, p.2) := rfl

theorem pv_lbrack (F : Nat) (r : List Char) :
    parseValue (F + 1) ('[' :: r) =
      (parseElems F r).map fun p => (Json.arr p.1, p.2) := rfl

theorem pv_lbrace (F : Nat) (r : List Char) :
    parseValue (F + 1) ('\u007B' :: r) =
      (parseFields F r).map fun p => (Json.obj p.1, p.2) := rfl

theorem pv_dash (F : Nat) (r : List Char) :
    parseValue (F + 1) ('-' :: r) =
      (parseIntChars ('-' :: r)).map fun p => (Json.num p.1, p.2) := rfl

set_option maxHeartbeats 1600000 in
theorem pv_digit (F : Nat) (c : Char) (r : List Char)
    (h : isDigitCh c = true) :
    parseValue (F + 1) (c :: r) =
      (parseIntChars (c :: r)).map fun p => (Json.num p.1, p.2) := by
  obtain ⟨h1, h2, h3, h4, h5, h6⟩ := digit_ne_keyword h
  show (if c = 'n' then
      if r.take 3 = ['u', 'l', 'l'] then some (Json.null, r.drop 3) else none
    else if c = 't' then
      if r.take 3 = ['r', 'u', 'e'] then some (Json.bool true, r.drop 3)
      else none
    else if c = 'f' then
      if r.take 4 = ['a', 'l', 's', 'e'] then some (Json.bool false, r.drop 4)
      else none
    else if c = '\"' then
      (parseStringBody (r.length + 1) r).map fun p => (Json.str ⟨p.1⟩, p.2)
    else if c = '[' then (parseElems F r).map fun p => (Json.arr p.1, p.2)
    else if c = '\u007B' then
      (parseFields F r).map fun p => (Json.obj p.1, p.2)
    else (parseIntChars (c :: r)).map fun p => (Json.num p.1, p.2)) = _
  rw [if_neg h1, if_neg h2, if_neg h3, if_neg h4, if_neg h5, if_neg h6]

theorem pe_close (F : Nat) (r : List Char) :
    parseElems (F + 1) (']' :: r) = some ([], r) := rfl

theorem pe_step (F : Nat) (s : List Char) (hne : s.head? ≠ some ']') :
    parseElems (F + 1) s = (parseValue F s).bind fun p =>
      if p.2.head? = some ',' then
        (parseElems F p.2.tail).map fun q => (p.1 :: q.1, q.2)
      else if p.2.head? = some ']' then some ([p.1], p.2.tail)
      else none := by
  rw [parseElems, if_neg hne]

theorem pf_close (F : Nat) (r : List Char) :
    parseFields (F + 1) ('\u007D' :: r) = some ([], r) := rfl

theorem pf_step (F : Nat) (s : List Char) (h1 : s.head? ≠ some '\u007D')
    (h2 : s.head? = some '\"') :
    parseFields (F + 1) s =
      (parseStringBody (s.tail.length + 1) s.tail).bind fun kp =>
        if kp.2.head? = some ':' then
          (parseValue F kp.2.tail).bind fun vp =>
            if vp.2.head? = some ',' then
              (parseFields F vp.2.tail).map fun q =>
                ((⟨kp.1⟩, vp.1) :: q.1, q.2)
            else if vp.2.head? = some '\u007D' then
              some ([(⟨kp.1⟩, vp.1)], vp.2.tail)
            else none
        else none := by
  rw [parseFields, if_neg h1, if_pos h2]

theorem parseElems_print : ∀ (xs : List Json),
    (∀ x ∈ xs, ∀ (rest : List Char) (fuel : Nat),
      (printJson x).length < fuel →
      (∀ n : Int, x = Json.num n → headIsDigit rest = false) →
      parseValue fuel (printJson x ++ rest) = some (x, rest)) →
    ∀ (rest : List Char) (fuel : Nat), xs ≠ [] →
      (printElems xs).length + 1 < fuel →
      parseElems fuel (printElems xs ++ ']' :: rest) = some (xs, rest) := by
  intro xs
  induction xs with
  | nil => intro _ _ _ h _; exact absurd rfl h
  | cons x xs' ih =>
    intro IH rest fuel _ hfuel
    obtain ⟨F, rfl⟩ : ∃ F, fuel = F + 1 := ⟨fuel - 1, by omega⟩
    obtain ⟨d, dr, hpx, _⟩ := printJson_head x
    obtain ⟨hd1, _⟩ := printJson_head_ne_close x d dr hpx
    cases xs' with
    | nil =>
      rw [printElems_single] at hfuel ⊢
      rw [pe_step F _ (by
        rw [hpx, List.cons_append, List.head?_cons]
        simp [hd1])]
      rw [IH x (List.mem_cons_self _ _) (']' :: rest) F (by omega)
        (fun _ _ => rfl)]
      simp only [Option.some_bind, List.head?_cons]
      rw [if_neg (by decide)]
      simp
    | cons y ys =>
      rw [printElems_cons2] at hfuel ⊢
      rw [List.append_assoc, List.cons_append]
      rw [pe_step F _ (by
        rw [hpx, List.cons_append, List.head?_cons]
        simp [hd1])]
      have hlx := printJson_length_pos x
      have hfx : (printJson x).length < F := by
        simp only [List.length_append, List.length_cons] at hfuel
        omega
      rw [IH x (List.mem_cons_self _ _)
        (',' :: (printElems (y :: ys) ++ ']' :: rest)) F hfx (fun _ _ => rfl)]
      simp only [Option.some_bind, List.head?_cons]
      rw [if_pos trivial]
      simp only [List.tail_cons]
      have hbound : (printElems (y :: ys)).length + 1 < F := by
        simp only [List.length_append, List.length_cons] at hfuel
        omega
      rw [ih (fun z hz => IH z (List.mem_cons_of_mem _ hz)) rest F
        (by simp) hbound]
      rfl

theorem parseFields_print : ∀ (fs : List (String × Json)),
    (∀ kv ∈ fs, ∀ (rest : List Char) (fuel : Nat),
      (printJson (Prod.snd kv)).length < fuel →
      (∀ n : Int, Prod.snd kv = Json.num n → headIsDigit rest = false) →
      parseValue fuel (printJson (Prod.snd kv) ++ rest) =
        some (Prod.snd kv, rest)) →
    ∀ (rest : List Char) (fuel : Nat), fs ≠ [] →
      (printFields fs).length + 1 < fuel →
      parseFields fuel (printFields fs ++ '\u007D' :: rest) = some (fs, rest) := by
  intro fs
  induction fs with
  | nil => intro _ _ _ h _; exact absurd rfl h
  | cons kv fs' ih =>
    obtain ⟨k, v⟩ := kv
    intro IH rest fuel _ hfuel
    obtain ⟨F, rfl⟩ : ∃ F, fuel = F + 1 := ⟨fuel - 1, by omega⟩
    cases fs' with
    | nil =>
      rw [printFields_single] at hfuel ⊢
      simp only [List.cons_append, List.append_assoc] at hfuel ⊢
      rw [pf_step F _ (by rw [List.head?_cons]; decide) (by rw [List.head?_cons])]
      simp only [List.tail_cons]
      rw [parseStringBody_print k.data _
        (':' :: (printJson v ++ '\u007D' :: rest))
        (by
          have := escString_length k.data
          simp only [List.length_append, List.length_cons]
          omega)]
      simp only [Option.some_bind, List.head?_cons]
      rw [if_pos trivial]
      simp only [List.tail_cons]
      have hlv : (printJson v).length < F := by
        simp only [List.length_append, List.length_cons] at hfuel
        omega
      rw [IH (k, v) (List.mem_cons_self _ _) ('\u007D' :: rest) F hlv
        (fun _ _ => rfl)]
      simp only [Option.some_bind, List.head?_cons]
      rw [if_neg (by decide)]
      simp
    | cons g tl =>
      rw [printFields_cons2] at hfuel ⊢
      simp only [List.cons_append, List.append_assoc] at hfuel ⊢
      rw [pf_step F _ (by rw [List.head?_cons]; decide) (by rw [List.head?_cons])]
      simp only [List.tail_cons]
      rw [parseStringBody_print k.data _
        (':' :: (printJson v ++
          ',' :: (printFields (g :: tl) ++ '\u007D' :: rest)))
        (by
          have := escString_length k.data
          simp only [List.length_append, List.length_cons]
          omega)]
      simp only [Option.some_bind, List.head?_cons]
      rw [if_pos trivial]
      simp only [List.tail_cons]
      have hlv : (printJson v).length < F := by
        simp only [List.length_append, List.length_cons] at hfuel
        omega
      rw [IH (k, v) (List.mem_cons_self _ _)
        (',' :: (printFields (g :: tl) ++ '\u007D' :: rest)) F hlv
        (fun _ _ => rfl)]
      simp only [Option.some_bind, List.head?_cons]
      rw [if_pos trivial]
      simp only [List.tail_cons]
      have hbound : (printFields (g :: tl)).length + 1 < F := by
        simp only [List.length_append, List.length_cons] at hfuel
        omega
      rw [ih (fun z hz => IH z (List.mem_cons_of_mem _ hz)) rest F
        (by simp) hbound]
      rfl

set_option maxHeartbeats 800000 in
theorem parseValue_printAux : ∀ (N : Nat) (v : Json), sizeOf v ≤ N →
    ∀ (rest : List Char) (fuel : Nat), (printJson v).length < fuel →
    (∀ n : Int, v = Json.num n → headIsDigit rest = false) →
    parseValue fuel (printJson v ++ rest) = some (v, rest) := by
  intro N
  induction N using Nat.strong_induction_on with
  | _ N ihN =>
    intro v hsz rest fuel hfuel hnum
    obtain ⟨F, rfl⟩ : ∃ F, fuel = F + 1 := ⟨fuel - 1, by omega⟩
    cases v with
    | null =>
      rw [printJson_eq_null]
      simp only [List.cons_append, List.nil_append]
      exact pv_null F rest
    | bool b =>
      cases b with
      | false =>
        rw [printJson_eq_false]
        simp only [List.cons_append, List.nil_append]
        exact pv_false F rest
      | true =>
        rw [printJson_eq_true]
        simp only [List.cons_append, List.nil_append]
        exact pv_true F rest
    | num n =>
      have hrest : headIsDigit rest = false := hnum n rfl
      rw [printJson_eq_num]
      cases n with
      | ofNat m =>
        obtain ⟨d, r, hd, hdig⟩ := natChars_head m
        rw [show intChars (Int.ofNat m) = natChars m from rfl, hd,
          List.cons_append, pv_digit F d _ hdig, ← List.cons_append, ← hd,
          show natChars m = intChars (Int.ofNat m) from rfl,
          parseIntChars_print (Int.ofNat m) rest hrest]
        rfl
      | negSucc m =>
        rw [show intChars (Int.negSucc m) = '-' :: natChars (m + 1) from rfl,
          List.cons_append, pv_dash F _, ← List.cons_append,
          show '-' :: natChars (m + 1) = intChars (Int.negSucc m) from rfl,
          parseIntChars_print (Int.negSucc m) rest hrest]
        rfl
    | str s =>
      rw [printJson_eq_str] at hfuel ⊢
      simp only [List.cons_append, List.append_assoc, List.nil_append,
        List.singleton_append] at hfuel ⊢
      rw [pv_quote F _,
        parseStringBody_print s.data _ rest (by
          have := escString_length s.data
          simp only [List.length_append, List.length_cons,
            List.length_nil] at hfuel ⊢
          omega)]
      rfl
    | arr xs =>
      cases xs with
      | nil =>
        rw [printJson_eq_arr, printElems_nil] at hfuel ⊢
        simp only [List.cons_append, List.nil_append,
          List.singleton_append] at hfuel ⊢
        obtain ⟨F2, rfl⟩ : ∃ F2, F = F2 + 1 := ⟨F - 1, by
          simp only [List.length_cons, List.length_nil] at hfuel
          omega⟩
        rw [pv_lbrack (F2 + 1) _, pe_close F2 rest]
        rfl
      | cons x xs' =>
        rw [printJson_eq_arr] at hfuel ⊢
        simp only [List.cons_append, List.append_assoc, List.nil_append,
          List.singleton_append] at hfuel ⊢
        rw [pv_lbrack F _]
        have hIH : ∀ z ∈ x :: xs', ∀ (rest' : List Char) (fuel' : Nat),
            (printJson z).length < fuel' →
            (∀ n : Int, z = Json.num n → headIsDigit rest' = false) →
            parseValue fuel' (printJson z ++ rest') = some (z, rest') := by
          intro z hz rest' fuel' h1 h2
          have hlt := List.sizeOf_lt_of_mem hz
          have hspec : sizeOf (Json.arr (x :: xs')) =
              1 + sizeOf (x :: xs') := by simp
          exact ihN (sizeOf z) (by omega) z le_rfl rest' fuel' h1 h2
        rw [parseElems_print (x :: xs') hIH rest F (by simp) (by
          simp only [List.length_cons, List.length_append,
            List.length_nil] at hfuel
          omega)]
        rfl
    | obj fs =>
      cases fs with
      | nil =>
        rw [printJson_eq_obj,
          show printFields ([] : List (String × Json)) = [] by
            simp [printFields]] at hfuel ⊢
        simp only [List.cons_append, List.nil_append,
          List.singleton_append] at hfuel ⊢
        obtain ⟨F2, rfl⟩ : ∃ F2, F = F2 + 1 := ⟨F - 1, by
          simp only [List.length_cons, List.length_nil] at hfuel
          omega⟩
        rw [pv_lbrace (F2 + 1) _, pf_close F2 rest]
        rfl
      | cons f0 fs' =>
        rw [printJson_eq_obj] at hfuel ⊢
        simp only [List.cons_append, List.append_assoc, List.nil_append,
          List.singleton_append] at hfuel ⊢
        rw [pv_lbrace F _]
        have hIH : ∀ z ∈ f0 :: fs', ∀ (rest' : List Char) (fuel' : Nat),
            (printJson (Prod.snd z)).length < fuel' →
            (∀ n : Int, Prod.snd z = Json.num n →
              headIsDigit rest' = false) →
            parseValue fuel' (printJson (Prod.snd z) ++ rest') =
              some (Prod.snd z, rest') := by
          intro z hz rest' fuel' h1 h2
          have hlt := List.sizeOf_lt_of_mem hz
          have hz2 : sizeOf (Prod.snd z) < sizeOf z := by
            obtain ⟨a, b⟩ := z
            show sizeOf b < sizeOf (a, b)
            simp only [Prod.mk.sizeOf_spec]
            omega
          have hspec : sizeOf (Json.obj (f0 :: fs')) =
              1 + sizeOf (f0 :: fs') := by simp
          exact ihN (sizeOf (Prod.snd z)) (by omega) (Prod.snd z) le_rfl
            rest' fuel' h1 h2
        rw [parseFields_print (f0 :: fs') hIH rest F (by simp) (by
          simp only [List.length_cons, List.length_append,
            List.length_nil] at hfuel
          omega)]
        rfl

theorem parseValue_print (v : Json) (rest : List Char) (fuel : Nat)
    (hfuel : (printJson v).length < fuel)
    (hnum : ∀ n : Int, v = Json.num n → headIsDigit rest = false) :
    parseValue fuel (printJson v ++ rest) = some (v, rest) :=
  parseValue_printAux (sizeOf v) v le_rfl rest fuel hfuel hnum

theorem jsonParse_jsonStringify (v : Json) :
    jsonParse (jsonStringify v) = some v := by
  have hv := parseValue_print v [] ((printJson v).length + 1)
    (by omega) (fun _ _ => rfl)
  rw [List.append_nil] at hv
  show (match parseValue ((printJson v).length + 1) (printJson v) with
    | some (w, []) => some w
    | _ => none) = some v
  rw [hv]

/-- Claim C8, counterexample to the original statement: deserializing a
serialized `null` throws — `Object.setPrototypeOf(null, proto)` is a
`TypeError` — so no value is returned at all, and a serialized number comes
back as the unchanged primitive `5`, not as a value whose prototype is the
supplied one. -/
theorem c8_counterexample :
    fromJSON (0 : Nat) (getJSON Json.null) = none ∧
    fromJSON (0 : Nat) (getJSON (Json.num 5)) =
      some (JSResult.prim (Json.num 5)) := by
  refine ⟨?_, ?_⟩
  · rw [fromJSON, getJSON, jsonParse_jsonStringify]
    rfl
  · rw [fromJSON, getJSON, jsonParse_jsonStringify]
    rfl

/-- Claim C8 (amended): the serialization collaborators round-trip the data
exactly — parsing `getJSON v` recovers `v` for every value of the JSON
model — but the prototype is attached only to objects: for an array or
plain object, `fromJSON p (getJSON v)` returns the object with data `v`
and prototype exactly `p`; for a number, string or boolean it returns the
primitive unchanged, whose behaviour `p` does not determine; and for
`null` it throws a `TypeError`. -/
theorem c8_serialization_roundtrip {π : Type} (p : π) (v : Json) :
    fromJSON p (getJSON v) =
      match v with
      | Json.null => none
      | Json.arr xs => some (JSResult.objWith (Json.arr xs) p)
      | Json.obj fs => some (JSResult.objWith (Json.obj fs) p)
      | w => some (JSResult.prim w) := by
  rw [fromJSON, getJSON, jsonParse_jsonStringify]
  cases v <;> rfl
